import Mathlib

/-!
# C0 virtual machine: shallow embedding of `execute` (src/c0vm.c)

The interpreter loop of `execute` is embedded as a step function on an explicit
machine state.  One call of `step` is one iteration of `while (true)`: it reads
`P[pc]`, dispatches on the opcode and performs the case's statements in source
order.

Conventions
* `int` is a mathematical integer kept in the 32-bit two's-complement range by
  `wrap32`; `size_t` is a natural number reduced modulo `2^64`; a `ubyte` is a
  natural number reduced modulo `256` when it is read.
* Memory is a collection of blocks addressed by (block, byte offset); a cell is
  a byte, a fragment of a stored pointer, or uninitialised.
* The platform is the one the course library targets: `int` has 4 bytes, a pointer 8
  bytes, `char` is signed, integers are stored little-endian, and `int` arithmetic wraps.
* Behaviour that C leaves undefined (reading outside an object, reading
  uninitialised heap storage, converting a value of the wrong kind) ends a run with
  `Stop.ub`.
* A local variable that was never written is read as the source reads it, without any
  test: the instruction pushes the content that the allocator left in the slot, which is a
  parameter of the host.
-/

namespace C0VM

/-! ## Machine integers -/

/-- Value of `INT_MIN` from `<limits.h>` for a 32-bit `int`. -/
def INT_MIN : Int := -2147483648

/-- Value of `INT_MAX` from `<limits.h>` for a 32-bit `int`. -/
def INT_MAX : Int := 2147483647

/-- Conversion to a 32-bit `int`: the two's-complement reading of the low 32 bits. -/
def wrap32 (x : Int) : Int := (x + 2147483648) % 4294967296 - 2147483648

/-- Conversion to `uint32_t`: the low 32 bits as a natural number. -/
def toU32 (x : Int) : Nat := (x % 4294967296).toNat

/-- Conversion `(int16_t)`: the two's-complement reading of the low 16 bits. -/
def wrap16 (x : Int) : Int := (x + 32768) % 65536 - 32768

/-- Conversion `(int8_t)` of a byte: the two's-complement reading of 8 bits. -/
def sext8 (b : Nat) : Int := if b % 256 < 128 then ((b % 256 : Nat) : Int) else ((b % 256 : Nat) : Int) - 256

/-- Number of values of `size_t` (64-bit). -/
def SIZE_MOD : Nat := 18446744073709551616

/-- Addition `pc + k` on `size_t`, where `k` is an `int` converted to `size_t`. -/
def pcAdd (pc : Nat) (k : Int) : Nat := (((pc : Int) + k) % (SIZE_MOD : Int)).toNat

/-! ## Values (lib/c0vm.h) -/

/-- A `void*`: null, or a byte offset into a memory block. -/
inductive Addr where
  | null
  | ptr (blk : Nat) (off : Int)
deriving DecidableEq, Repr

/-- Modelled from the spec: `c0_value` of lib/c0vm.h, a discriminated scalar holding
either a signed 32-bit integer or an address (possibly null). -/
inductive c0_value where
  | int (i : Int)
  | ptr (p : Addr)
deriving DecidableEq, Repr

/-- Modelled from the spec: `val2int` of lib/c0vm.h, the "as integer" conversion; the
program is trusted to present an integer, anything else has no defined result. -/
def val2int : c0_value → Option Int
  | .int i => some i
  | .ptr _ => none

/-- Modelled from the spec: `val2ptr` of lib/c0vm.h, the "as address" conversion. -/
def val2ptr : c0_value → Option Addr
  | .ptr p => some p
  | .int _ => none

/-- Modelled from the spec: `int2val` of lib/c0vm.h. -/
def int2val (i : Int) : c0_value := .int i

/-- Modelled from the spec: `ptr2val` of lib/c0vm.h. -/
def ptr2val (p : Addr) : c0_value := .ptr p

/-- Modelled from the spec: `val_equal` of lib/c0vm.h, value-equality (integers compare
numerically, addresses by identity). -/
def val_equal (v1 v2 : c0_value) : Bool := decide (v1 = v2)

/-! ## Memory -/

/-- One byte of memory. -/
inductive MemByte where
  | uninit
  | byte (n : Nat)
  | frag (a : Addr) (k : Nat)
deriving DecidableEq, Repr

/-- An allocated object: its size in bytes and its contents by byte offset. -/
structure Block where
  size : Nat
  data : Int → MemByte

/-- The memory: blocks `0 .. next-1` exist. -/
structure Heap where
  next : Nat
  blocks : Nat → Block

/-- The `len` bytes at `(b, off)` lie inside an existing block. -/
def Heap.inBounds (H : Heap) (b : Nat) (off : Int) (len : Nat) : Bool :=
  decide (b < H.next) && decide (0 ≤ off) && decide (off + (len : Int) ≤ ((H.blocks b).size : Int))

/-- Contents of the `len` bytes starting at `(b, off)`. -/
def Heap.bytes (H : Heap) (b : Nat) (off : Int) (len : Nat) : List MemByte :=
  (List.range len).map (fun (k : Nat) => (H.blocks b).data (off + (k : Int)))

/-- Overwrite the bytes starting at `(b, off)` with `bs`. -/
def Heap.write (H : Heap) (b : Nat) (off : Int) (bs : List MemByte) : Heap :=
  { next := H.next
    blocks := fun b1 =>
      if b1 = b then
        { size := (H.blocks b).size
          data := fun o =>
            if off ≤ o ∧ o < off + (bs.length : Int) then bs.getD (o - off).toNat MemByte.uninit
            else (H.blocks b).data o }
      else H.blocks b1 }

/-- A new block: the block id `H.next`, `size` bytes all equal to `fill`. -/
def Heap.alloc (H : Heap) (size : Nat) (fill : MemByte) : Nat × Heap :=
  (H.next,
   { next := H.next + 1
     blocks := fun b1 => if b1 = H.next then { size := size, data := fun _ => fill } else H.blocks b1 })

/-- Modelled from the spec: `xmalloc` of lib/xalloc.h, which allocates a block of `size` bytes
with indeterminate contents; running out of memory is not part of the model. -/
def xmalloc (H : Heap) (size : Nat) : Nat × Heap := H.alloc size MemByte.uninit

/-- Modelled from the spec: `xcalloc` of lib/xalloc.h, which allocates a zero-initialised
block of `nobj * size` bytes; running out of memory is not part of the model. -/
def xcalloc (H : Heap) (nobj size : Nat) : Nat × Heap := H.alloc (nobj * size) (MemByte.byte 0)

/-- Numeric value of a run of plain bytes, little-endian; `none` if some byte is not a plain byte. -/
def leValue : List MemByte → Option Nat
  | [] => some 0
  | MemByte.byte n :: rest => (leValue rest).map (fun v => n % 256 + 256 * v)
  | _ :: _ => none

/-- The `len` little-endian bytes of `n`. -/
def leBytes : Nat → Nat → List MemByte
  | 0, _ => []
  | len + 1, n => MemByte.byte (n % 256) :: leBytes len (n / 256)

/-- Representation of a pointer in 8 bytes: the null pointer is all-zero bytes. -/
def ptrBytes : Addr → List MemByte
  | .null => List.replicate 8 (MemByte.byte 0)
  | .ptr b o => (List.range 8).map (fun k => MemByte.frag (.ptr b o) k)

/-- Read an `int` (4 bytes) through a non-null pointer. -/
def loadInt (H : Heap) : Addr → Option Int
  | .null => none
  | .ptr b off =>
    if H.inBounds b off 4 then (leValue (H.bytes b off 4)).map (fun (n : Nat) => wrap32 (n : Int)) else none

/-- Write an `int` (4 bytes) through a non-null pointer. -/
def storeInt (H : Heap) (a : Addr) (x : Int) : Option Heap :=
  match a with
  | .null => none
  | .ptr b off => if H.inBounds b off 4 then some (H.write b off (leBytes 4 (toU32 x))) else none

/-- Read a `void*` (8 bytes) through a non-null pointer. -/
def loadPtr (H : Heap) : Addr → Option Addr
  | .null => none
  | .ptr b off =>
    if H.inBounds b off 8 then
      match H.bytes b off 8 with
      | MemByte.byte 0 :: rest => if rest = List.replicate 7 (MemByte.byte 0) then some .null else none
      | MemByte.frag p 0 :: rest => if MemByte.frag p 0 :: rest = ptrBytes p then some p else none
      | _ => none
    else none

/-- Write a `void*` (8 bytes) through a non-null pointer. -/
def storePtr (H : Heap) (a : Addr) (p : Addr) : Option Heap :=
  match a with
  | .null => none
  | .ptr b off => if H.inBounds b off 8 then some (H.write b off (ptrBytes p)) else none

/-- Read a `char` (1 byte, signed) through a non-null pointer and convert it to `int`. -/
def loadChar (H : Heap) : Addr → Option Int
  | .null => none
  | .ptr b off =>
    if H.inBounds b off 1 then
      match (H.blocks b).data off with
      | MemByte.byte n => some (sext8 n)
      | _ => none
    else none

/-- Write a `char` (1 byte) through a non-null pointer: the `int` converted to `char`. -/
def storeChar (H : Heap) (a : Addr) (x : Int) : Option Heap :=
  match a with
  | .null => none
  | .ptr b off => if H.inBounds b off 1 then some (H.write b off [MemByte.byte (toU32 x % 256)]) else none

/-- Pointer arithmetic `(char*)p + k`; arithmetic on the null pointer has no defined result. -/
def ptrAdd : Addr → Int → Option Addr
  | .null, _ => none
  | .ptr b off, k => some (.ptr b (off + k))

/-! ## Program representation (lib/c0vm.h) -/

/-- Modelled from the spec: `struct function_info` of lib/c0vm.h (declared argument count,
declared local-variable count, code bytes). -/
structure function_info where
  num_args : Nat
  num_vars : Nat
  code : List Nat

/-- Modelled from the spec: `struct native_info` of lib/c0vm.h (declared argument count and
index into the native-function table). -/
structure native_info where
  num_args : Nat
  function_table_index : Nat

/-- Modelled from the spec: `struct bc0_file` of lib/c0vm.h, the four constant pools. -/
structure bc0_file where
  int_pool : List Int
  string_pool : List Nat
  function_pool : List function_info
  native_pool : List native_info

/-- What `execute` uses from outside the program: the native-function table of
lib/c0vm_c0ffi.h; whether the fields `count` and `elt_size` of `c0_array`
(lib/c0vm.h) are declared with an unsigned 32-bit type; and the content that `xmalloc`
leaves in slot `k` of a new array of locals, which C does not determine (it is whatever
the allocator hands out, for instance what an earlier frame stored there; the model takes
it to be a function of the slot index). -/
structure Host where
  native_function_table : Nat → List c0_value → c0_value
  unsigned_array_fields : Bool
  indeterminate_local : Nat → c0_value

/-- Modelled from the spec: the opcode names of `enum instructions` in lib/c0vm.h. -/
inductive Opcode where
  | POP | DUP | SWAP | RETURN
  | IADD | ISUB | IMUL | IDIV | IREM | IAND | IOR | IXOR | ISHR | ISHL
  | BIPUSH | ILDC | ALDC | ACONST_NULL
  | VLOAD | VSTORE
  | ATHROW | ASSERT
  | NOP | IF_CMPEQ | IF_CMPNE | IF_ICMPLT | IF_ICMPGE | IF_ICMPGT | IF_ICMPLE | GOTO
  | INVOKESTATIC | INVOKENATIVE
  | NEW | IMLOAD | IMSTORE | AMLOAD | AMSTORE | CMLOAD | CMSTORE | AADDF
  | NEWARRAY | ARRAYLENGTH | AADDS
  | CHECKTAG | HASTAG | ADDTAG | ADDROF_STATIC | ADDROF_NATIVE | INVOKEDYNAMIC
deriving DecidableEq, Repr

/-- Modelled from the spec: the opcode byte values of `enum instructions` in lib/c0vm.h
(the C0VM instruction reference). -/
def decode : Nat → Option Opcode
  | 0x57 => some .POP | 0x59 => some .DUP | 0x5F => some .SWAP | 0xB0 => some .RETURN
  | 0x60 => some .IADD | 0x64 => some .ISUB | 0x68 => some .IMUL | 0x6C => some .IDIV
  | 0x70 => some .IREM | 0x7E => some .IAND | 0x80 => some .IOR | 0x82 => some .IXOR
  | 0x7A => some .ISHR | 0x78 => some .ISHL
  | 0x10 => some .BIPUSH | 0x13 => some .ILDC | 0x14 => some .ALDC | 0x01 => some .ACONST_NULL
  | 0x15 => some .VLOAD | 0x36 => some .VSTORE
  | 0xBF => some .ATHROW | 0xCF => some .ASSERT
  | 0x00 => some .NOP | 0x9F => some .IF_CMPEQ | 0xA0 => some .IF_CMPNE
  | 0xA1 => some .IF_ICMPLT | 0xA2 => some .IF_ICMPGE | 0xA3 => some .IF_ICMPGT
  | 0xA4 => some .IF_ICMPLE | 0xA7 => some .GOTO
  | 0xB8 => some .INVOKESTATIC | 0xB7 => some .INVOKENATIVE
  | 0xBB => some .NEW | 0x2E => some .IMLOAD | 0x4E => some .IMSTORE | 0x2F => some .AMLOAD
  | 0x4F => some .AMSTORE | 0x34 => some .CMLOAD | 0x55 => some .CMSTORE | 0x62 => some .AADDF
  | 0xBC => some .NEWARRAY | 0xBE => some .ARRAYLENGTH | 0x63 => some .AADDS
  | 0xC0 => some .CHECKTAG | 0xC1 => some .HASTAG | 0xC2 => some .ADDTAG
  | 0x16 => some .ADDROF_STATIC | 0x17 => some .ADDROF_NATIVE | 0xB6 => some .INVOKEDYNAMIC
  | _ => none

/-! ## Machine state -/

/-- The `struct frame_info` of c0vm.c: a suspended caller. -/
structure frame where
  S : List c0_value
  P : List Nat
  pc : Nat
  V : List (Option c0_value)

/-- The variables of `execute` and the memory.  `S` has its top at the head; a local
that was never written since its array was allocated is `none`, and reading it yields what
the allocator left there (`Host.indeterminate_local`). -/
structure State where
  S : List c0_value
  P : List Nat
  pc : Nat
  V : List (Option c0_value)
  callStack : List frame
  heap : Heap

/-- Modelled from the spec: the error kinds raised by the routines of lib/c0vm_abort.h
(`c0_arith_error`, `c0_memory_error`, `c0_assertion_failure`, `c0_user_error`), by `c0v_pop`
on an empty stack, and by the `default` case. -/
inductive c0_error where
  | StackUnderflow | ArithmeticError | MemoryError | AssertionFailure | UserException | InvalidOpcode
deriving DecidableEq, Repr

/-- Ways in which the loop of `execute` ends. -/
inductive Stop where
  /-- `return val2int(retval)` -/
  | returned (r : Int)
  /-- an abort routine ended the process; `H` is the memory at that point -/
  | error (e : c0_error) (H : Heap)
  /-- the `assert` of the RETURN case failed -/
  | assertFail
  /-- behaviour not defined by C -/
  | ub

/-- Result of one loop iteration: the next state or the end of the run. -/
abbrev Exec := Except Stop

/-- Modelled from the spec: `c0v_pop` of lib/c0v_stack.h fails with StackUnderflow on an
empty stack, otherwise removes and returns the top. -/
def c0v_pop (H : Heap) : List c0_value → Exec (c0_value × List c0_value)
  | [] => .error (.error .StackUnderflow H)
  | v :: S => .ok (v, S)

/-- The composition `val2int(c0v_pop(S))`. -/
def popInt (H : Heap) (S : List c0_value) : Exec (Int × List c0_value) :=
  match c0v_pop H S with
  | .error e => .error e
  | .ok (v, S1) =>
    match val2int v with
    | some i => .ok (i, S1)
    | none => .error .ub

/-- The composition `val2ptr(c0v_pop(S))`. -/
def popPtr (H : Heap) (S : List c0_value) : Exec (Addr × List c0_value) :=
  match c0v_pop H S with
  | .error e => .error e
  | .ok (v, S1) =>
    match val2ptr v with
    | some p => .ok (p, S1)
    | none => .error .ub

/-- A defined result or undefined behaviour. -/
def orUB {α : Type} : Option α → Exec α
  | some a => .ok a
  | none => .error .ub

/-- The `ubyte` at index `i` of a code array, if the index is inside the array. -/
def byteAt (P : List Nat) (i : Nat) : Option Nat := (P[i]?).map (fun b => b % 256)

/-- The read `P[pc]` of a `ubyte`. -/
def fetch (P : List Nat) (pc : Nat) : Exec Nat := orUB (byteAt P pc)

/-- The branch offset `(int16_t)(o1 << 8 | o2)` of two operand bytes. -/
def branchOffset (o1 o2 : Nat) : Int := wrap16 ((o1 <<< 8 ||| o2 : Nat) : Int)

/-- The statements of a taken branch, entered with `pc` at the first offset byte:
`o1 = P[pc]; pc++; o2 = P[pc]; to_add = (int16_t)(o1 << 8 | o2); pc += to_add - 2`. -/
def takeBranch (P : List Nat) (pc : Nat) : Exec Nat := do
  let o1 ← fetch P pc
  let pc1 := pcAdd pc 1
  let o2 ← fetch P pc1
  let to_add := branchOffset o1 o2
  pure (pcAdd pc1 (to_add - 2))

/-- The two operand bytes of a pool index, `c1 << 8 | c2`, entered with `pc` at the first. -/
def fetch16 (P : List Nat) (pc : Nat) : Exec Nat := do
  let c1 ← fetch P pc
  let c2 ← fetch P (pcAdd pc 1)
  pure ((c1 <<< 8 ||| c2) % 65536)

/-- The argument loop of INVOKESTATIC and INVOKENATIVE:
`while (num_of_args != 0) { V[num_of_args - 1] = c0v_pop(S); num_of_args -= 1; }`. -/
def popArgs (H : Heap) : Nat → List (Option c0_value) → List c0_value →
    Exec (List (Option c0_value) × List c0_value)
  | 0, V, S => .ok (V, S)
  | n + 1, V, S =>
    match c0v_pop H S with
    | .error e => .error e
    | .ok (v, S1) => if n < V.length then popArgs H n (V.set n (some v)) S1 else .error .ub

/-- The product `a->elt_size * index` of AADDS as a pointer offset: a 32-bit product,
unsigned when the field is declared unsigned, signed otherwise. -/
def eltOffset (h : Host) (elt_size index : Int) : Int :=
  if h.unsigned_array_fields then ((toU32 elt_size * toU32 index % 4294967296 : Nat) : Int)
  else wrap32 (elt_size * index)

/-- Byte offsets of the fields of `c0_array` and its size: `count`, `elt_size` (4 bytes each)
and `elems` (a pointer). -/
def OFF_COUNT : Int := 0

/-- Offset of the field `elt_size`. -/
def OFF_ELT_SIZE : Int := 4

/-- Offset of the field `elems`. -/
def OFF_ELEMS : Int := 8

/-- The value of `sizeof(c0_array)`. -/
def SIZEOF_C0_ARRAY : Nat := 16

/-- The value of `sizeof(void*)`. -/
def SIZEOF_PTR : Nat := 8

/-- The value of `sizeof(size)` in the NEW case, where `size` is a `uint8_t`. -/
def SIZEOF_UINT8 : Nat := 1

/-- The field at byte offset `k` of the object `a` points to. -/
def fieldAddr : Addr → Int → Addr
  | .null, _ => .null
  | .ptr b off, k => .ptr b (off + k)

/-- Modelled from the spec: a call of one of the routines of lib/c0vm_abort.h
(`c0_arith_error`, `c0_memory_error`, `c0_assertion_failure`, `c0_user_error`) or of `abort`;
every error is fatal and ends the process at once, so the routine does not return. -/
def raise {α : Type} (e : c0_error) (H : Heap) : Exec α := .error (.error e H)

/-- The cases IADD .. IXOR: `pc++; y = pop; x = pop; push (f x y)`. -/
def binop (f : Int → Int → Int) (st : State) : Exec State := do
  let pc := pcAdd st.pc 1
  let (y, S1) ← popInt st.heap st.S
  let (x, S2) ← popInt st.heap S1
  pure { st with pc := pc, S := int2val (f x y) :: S2 }

/-- The cases IDIV and IREM: the two guards, then `push (f x y)`. -/
def divop (f : Int → Int → Int) (st : State) : Exec State := do
  let pc := pcAdd st.pc 1
  let (y, S1) ← popInt st.heap st.S
  let (x, S2) ← popInt st.heap S1
  if y = 0 then raise .ArithmeticError st.heap
  else if x = INT_MIN ∧ y = -1 then raise .ArithmeticError st.heap
  else pure { st with pc := pc, S := int2val (f x y) :: S2 }

/-- The cases ISHR and ISHL: the two guards, then `push (f x y)`. -/
def shiftop (f : Int → Int → Int) (st : State) : Exec State := do
  let pc := pcAdd st.pc 1
  let (y, S1) ← popInt st.heap st.S
  let (x, S2) ← popInt st.heap S1
  if y ≥ 32 then raise .ArithmeticError st.heap
  else if y < 0 then raise .ArithmeticError st.heap
  else pure { st with pc := pc, S := int2val (f x y) :: S2 }

/-- The cases IF_CMPEQ and IF_CMPNE: `pc++; v1 = pop; v2 = pop; if (cond v1 v2) branch else pc += 2`. -/
def cmpBranch (cond : c0_value → c0_value → Bool) (st : State) : Exec State := do
  let pc := pcAdd st.pc 1
  let (v1, S1) ← c0v_pop st.heap st.S
  let (v2, S2) ← c0v_pop st.heap S1
  if cond v1 v2 then
    let pc1 ← takeBranch st.P pc
    pure { st with pc := pc1, S := S2 }
  else pure { st with pc := pcAdd pc 2, S := S2 }

/-- The cases IF_ICMPLT .. IF_ICMPLE: as `cmpBranch`, on `int`s; `cond v2 v1` is the test
of the source (`v2 < v1`, ...). -/
def icmpBranch (cond : Int → Int → Bool) (st : State) : Exec State := do
  let pc := pcAdd st.pc 1
  let (v1, S1) ← popInt st.heap st.S
  let (v2, S2) ← popInt st.heap S1
  if cond v2 v1 then
    let pc1 ← takeBranch st.P pc
    pure { st with pc := pc1, S := S2 }
  else pure { st with pc := pcAdd pc 2, S := S2 }

/-- The content of slot `i` of the locals, as `c0_value v = V[i]` reads it: the value last
stored there, or, for a slot never written since `xmalloc`, what the allocator left. -/
def slotValue (h : Host) (i : Nat) : Option c0_value → c0_value
  | some v => v
  | none => h.indeterminate_local i

/-- The body of `switch (P[pc])` for a decoded opcode. -/
def execInstr (bc0 : bc0_file) (h : Host) (op : Opcode) (st : State) : Exec State :=
  match op with
  | .POP => do
      let pc := pcAdd st.pc 1
      let (_, S1) ← c0v_pop st.heap st.S
      pure { st with pc := pc, S := S1 }
  | .DUP => do
      let pc := pcAdd st.pc 1
      let (v, S1) ← c0v_pop st.heap st.S
      pure { st with pc := pc, S := v :: v :: S1 }
  | .SWAP => do
      let pc := pcAdd st.pc 1
      let (v1, S1) ← c0v_pop st.heap st.S
      let (v2, S2) ← c0v_pop st.heap S1
      pure { st with pc := pc, S := v2 :: v1 :: S2 }
  | .RETURN => do
      let (retval, S1) ← c0v_pop st.heap st.S
      if S1.isEmpty then
        match st.callStack with
        | [] => do
            let r ← orUB (val2int retval)
            throw (Stop.returned r)
        | f :: rest =>
            pure { S := retval :: f.S, P := f.P, pc := f.pc, V := f.V, callStack := rest, heap := st.heap }
      else throw Stop.assertFail
  | .IADD => binop (fun x y => wrap32 (x + y)) st
  | .ISUB => binop (fun x y => wrap32 (x - y)) st
  | .IMUL => binop (fun x y => wrap32 (x * y)) st
  | .IDIV => divop (fun x y => Int.tdiv x y) st
  | .IREM => divop (fun x y => Int.tmod x y) st
  | .IAND => binop (fun x y => wrap32 ((toU32 x &&& toU32 y : Nat) : Int)) st
  | .IOR => binop (fun x y => wrap32 ((toU32 x ||| toU32 y : Nat) : Int)) st
  | .IXOR => binop (fun x y => wrap32 ((toU32 x ^^^ toU32 y : Nat) : Int)) st
  | .ISHR => shiftop (fun x y => x >>> y.toNat) st
  | .ISHL => shiftop (fun x y => wrap32 (x * 2 ^ y.toNat)) st
  | .BIPUSH => do
      let pc := pcAdd st.pc 1
      let b ← fetch st.P pc
      pure { st with pc := pcAdd pc 1, S := int2val (sext8 b) :: st.S }
  | .ILDC => do
      let pc := pcAdd st.pc 1
      let idx ← fetch16 st.P pc
      let x ← orUB bc0.int_pool[idx]?
      pure { st with pc := pcAdd pc 2, S := int2val (wrap32 x) :: st.S }
  | .ALDC => do
      let pc := pcAdd st.pc 1
      let idx ← fetch16 st.P pc
      pure { st with pc := pcAdd pc 2, S := ptr2val (.ptr 0 (idx : Int)) :: st.S }
  | .ACONST_NULL =>
      pure { st with pc := pcAdd st.pc 1, S := ptr2val .null :: st.S }
  | .VLOAD => do
      let pc := pcAdd st.pc 1
      let i ← fetch st.P pc
      let slot ← orUB st.V[i]?
      pure { st with pc := pcAdd pc 1, S := slotValue h i slot :: st.S }
  | .VSTORE => do
      let pc := pcAdd st.pc 1
      let (v, S1) ← c0v_pop st.heap st.S
      let i ← fetch st.P pc
      if i < st.V.length then pure { st with pc := pcAdd pc 1, S := S1, V := st.V.set i (some v) }
      else throw Stop.ub
  | .ATHROW => do
      -- `pc++` is not observable: the process ends here
      let (_, _) ← popPtr st.heap st.S
      raise .UserException st.heap
  | .ASSERT => do
      let pc := pcAdd st.pc 1
      let (_, S1) ← popPtr st.heap st.S
      let (x, S2) ← popInt st.heap S1
      if x = 0 then raise .AssertionFailure st.heap
      else pure { st with pc := pc, S := S2 }
  | .NOP => pure { st with pc := pcAdd st.pc 1 }
  | .IF_CMPEQ => cmpBranch (fun v1 v2 => val_equal v1 v2) st
  | .IF_CMPNE => cmpBranch (fun v1 v2 => !val_equal v1 v2) st
  | .IF_ICMPLT => icmpBranch (fun v2 v1 => decide (v2 < v1)) st
  | .IF_ICMPGE => icmpBranch (fun v2 v1 => decide (v2 ≥ v1)) st
  | .IF_ICMPGT => icmpBranch (fun v2 v1 => decide (v2 > v1)) st
  | .IF_ICMPLE => icmpBranch (fun v2 v1 => decide (v2 ≤ v1)) st
  | .GOTO => do
      let pc := pcAdd st.pc 1
      let pc1 ← takeBranch st.P pc
      pure { st with pc := pc1 }
  | .INVOKESTATIC => do
      let pc := pcAdd st.pc 1
      let pos ← fetch16 st.P pc
      let pc3 := pcAdd pc 2
      let g ← orUB bc0.function_pool[pos]?
      let (V1, S1) ← popArgs st.heap g.num_args (List.replicate g.num_vars none) st.S
      pure { S := [], P := g.code, pc := 0, V := V1,
             callStack := { S := S1, P := st.P, pc := pc3, V := st.V } :: st.callStack,
             heap := st.heap }
  | .INVOKENATIVE => do
      let pc := pcAdd st.pc 1
      let pos ← fetch16 st.P pc
      let g_native ← orUB bc0.native_pool[pos]?
      let (A, S1) ← popArgs st.heap g_native.num_args (List.replicate g_native.num_args none) st.S
      let v := h.native_function_table g_native.function_table_index (A.filterMap id)
      pure { st with pc := pcAdd pc 2, S := v :: S1 }
  | .NEW => do
      let pc := pcAdd st.pc 1
      let _size ← fetch st.P pc
      let (b, H1) := xmalloc st.heap SIZEOF_UINT8
      pure { st with pc := pcAdd pc 1, S := ptr2val (.ptr b 0) :: st.S, heap := H1 }
  | .IMLOAD => do
      let (ptr, S1) ← popPtr st.heap st.S
      if ptr = .null then raise .MemoryError st.heap
      else
        let x ← orUB (loadInt st.heap ptr)
        pure { st with pc := pcAdd st.pc 1, S := int2val x :: S1 }
  | .IMSTORE => do
      let (x, S1) ← popInt st.heap st.S
      let (ptr, S2) ← popPtr st.heap S1
      if ptr = .null then raise .MemoryError st.heap
      else
        let H1 ← orUB (storeInt st.heap ptr x)
        pure { st with pc := pcAdd st.pc 1, S := S2, heap := H1 }
  | .AMLOAD => do
      let (a, S1) ← popPtr st.heap st.S
      if a = .null then raise .MemoryError st.heap
      else
        let b ← orUB (loadPtr st.heap a)
        pure { st with pc := pcAdd st.pc 1, S := ptr2val b :: S1 }
  | .AMSTORE => do
      let pc := pcAdd st.pc 1
      let (ptr_a, S1) ← popPtr st.heap st.S
      let (ptr_b, S2) ← popPtr st.heap S1
      if ptr_a = .null ∨ ptr_b = .null then raise .MemoryError st.heap
      else
        let H1 ← orUB (storePtr st.heap ptr_b ptr_a)
        pure { st with pc := pc, S := S2, heap := H1 }
  | .CMLOAD => do
      let pc := pcAdd st.pc 1
      let (ptr, S1) ← popPtr st.heap st.S
      if ptr = .null then raise .MemoryError st.heap
      else
        let v ← orUB (loadChar st.heap ptr)
        pure { st with pc := pc, S := int2val v :: S1 }
  | .CMSTORE => do
      let (v, S1) ← popInt st.heap st.S
      let (ptr, S2) ← popPtr st.heap S1
      if ptr = .null then raise .MemoryError st.heap
      else
        let H1 ← orUB (storeChar st.heap ptr ((toU32 v &&& 0x7f : Nat) : Int))
        pure { st with pc := pcAdd st.pc 1, S := S2, heap := H1 }
  | .AADDF => do
      let pc := pcAdd st.pc 1
      let (ptr, S1) ← popPtr st.heap st.S
      if ptr = .null then raise .MemoryError st.heap
      else
        let off_set ← fetch st.P pc
        let res ← orUB (ptrAdd ptr (off_set : Int))
        pure { st with pc := pcAdd pc 1, S := ptr2val res :: S1 }
  | .NEWARRAY => do
      let pc := pcAdd st.pc 1
      let (A, H1) := xmalloc st.heap SIZEOF_C0_ARRAY
      let (x, S1) ← popInt H1 st.S
      if x < 0 then raise .MemoryError H1
      else
        let H2 ← orUB (storeInt H1 (.ptr A OFF_COUNT) x)
        let b ← fetch st.P pc
        let H3 ← orUB (storeInt H2 (.ptr A OFF_ELT_SIZE) (sext8 b))
        let (E, H4) := xcalloc H3 SIZEOF_PTR x.toNat
        let H5 ← orUB (storePtr H4 (.ptr A OFF_ELEMS) (.ptr E 0))
        pure { st with pc := pcAdd pc 1, S := ptr2val (.ptr A 0) :: S1, heap := H5 }
  | .ARRAYLENGTH => do
      let (A, S1) ← popPtr st.heap st.S
      if A = .null then raise .MemoryError st.heap
      else
        let count ← orUB (loadInt st.heap (fieldAddr A OFF_COUNT))
        pure { st with pc := pcAdd st.pc 1, S := int2val count :: S1 }
  | .AADDS => do
      let (index, S1) ← popInt st.heap st.S
      let (A, S2) ← popPtr st.heap S1
      if A = .null then raise .MemoryError st.heap
      else
        let count ← orUB (loadInt st.heap (fieldAddr A OFF_COUNT))
        if index < 0 ∨ index > count then raise .MemoryError st.heap
        else
          let elems ← orUB (loadPtr st.heap (fieldAddr A OFF_ELEMS))
          let elt_size ← orUB (loadInt st.heap (fieldAddr A OFF_ELT_SIZE))
          let res ← orUB (ptrAdd elems (eltOffset h elt_size index))
          pure { st with pc := pcAdd st.pc 1, S := ptr2val res :: S2 }
  | .CHECKTAG | .HASTAG | .ADDTAG | .ADDROF_STATIC | .ADDROF_NATIVE | .INVOKEDYNAMIC =>
      raise .InvalidOpcode st.heap

/-- The instruction whose opcode byte is at index `i` of a code array. -/
def opcodeAt (P : List Nat) (i : Nat) : Option Opcode := (byteAt P i).bind decode

/-- One iteration of the loop of `execute`: `switch (P[pc])`, with `default` for a byte
that is no opcode. -/
def step (bc0 : bc0_file) (h : Host) (st : State) : Exec State :=
  match fetch st.P st.pc with
  | .error e => .error e
  | .ok b =>
    match decode b with
    | some op => execInstr bc0 h op st
    | none => raise .InvalidOpcode st.heap

/-- Iterate `step` at most `fuel` times; `none` when the loop is still running. -/
def run (bc0 : bc0_file) (h : Host) : Nat → State → Option Stop
  | 0, _ => none
  | fuel + 1, st =>
    match step bc0 h st with
    | .error e => some e
    | .ok st1 => run bc0 h fuel st1

/-- Iterate `step` exactly `n` times, stopping early at the end of the run. -/
def steps (bc0 : bc0_file) (h : Host) : Nat → State → Exec State
  | 0, st => .ok st
  | n + 1, st =>
    match step bc0 h st with
    | .error e => .error e
    | .ok st1 => steps bc0 h n st1

/-- The memory when `execute` starts: block 0 is the string pool. -/
def initHeap (bc0 : bc0_file) : Heap :=
  { next := 1
    blocks := fun _ =>
      { size := bc0.string_pool.length
        data := fun o => match bc0.string_pool[o.toNat]? with
          | some c => if 0 ≤ o then MemByte.byte (c % 256) else MemByte.uninit
          | none => MemByte.uninit } }

/-- The state of `execute` on entry to the loop; undefined when the function pool is empty. -/
def initState (bc0 : bc0_file) : Option State :=
  match bc0.function_pool[0]? with
  | some f0 =>
    some { S := [], P := f0.code, pc := 0, V := List.replicate f0.num_vars none,
           callStack := [], heap := initHeap bc0 }
  | none => none

/-! ## Program families of the end-to-end claims -/

/-- The entry program `BIPUSH a; BIPUSH b; BIPUSH c; IMUL; IADD; RETURN`. -/
def exprCode (a b c : Nat) : List Nat := [0x10, a, 0x10, b, 0x10, c, 0x68, 0x60, 0xB0]

/-- The branch condition of a conditional branch as the specification words it, for the
stack `... x y` (`y` on top): `some true` when the branch is to be taken.  The relational
comparisons are restricted to integer operands. -/
def specTaken : Opcode → c0_value → c0_value → Option Bool
  | .IF_ICMPLT, .int x, .int y => some (decide (x < y))
  | .IF_ICMPGE, .int x, .int y => some (decide (x ≥ y))
  | .IF_ICMPGT, .int x, .int y => some (decide (x > y))
  | .IF_ICMPLE, .int x, .int y => some (decide (x ≤ y))
  | .IF_CMPEQ, vx, vy => some (decide (vx = vy))
  | .IF_CMPNE, vx, vy => some (decide (vx ≠ vy))
  | _, _, _ => none

/-- The call-chain program for the base value `b`: the entry function pushes `b` (the only
entry of the integer pool) and calls function 1; functions 1 and 2 pass their argument to
the next function, add 1 to what it returns and return that; function 3 adds 1 to its
argument and returns it.
* function 0: `ILDC 0; INVOKESTATIC 1; RETURN`
* function 1: `VLOAD 0; INVOKESTATIC 2; BIPUSH 1; IADD; RETURN`
* function 2: `VLOAD 0; INVOKESTATIC 3; BIPUSH 1; IADD; RETURN`
* function 3: `VLOAD 0; BIPUSH 1; IADD; RETURN` -/
def chainProgram (b : Int) : bc0_file :=
  { int_pool := [b], string_pool := [],
    function_pool :=
      [ { num_args := 0, num_vars := 0, code := [0x13, 0, 0, 0xB8, 0, 1, 0xB0] },
        { num_args := 1, num_vars := 1, code := [0x15, 0, 0xB8, 0, 2, 0x10, 1, 0x60, 0xB0] },
        { num_args := 1, num_vars := 1, code := [0x15, 0, 0xB8, 0, 3, 0x10, 1, 0x60, 0xB0] },
        { num_args := 1, num_vars := 1, code := [0x15, 0, 0x10, 1, 0x60, 0xB0] } ],
    native_pool := [] }

/-- A host whose native functions all return the integer 0, with the array fields declared
signed and an allocator that hands out zeroed memory for the locals. -/
def host0 : Host :=
  { native_function_table := fun _ _ => .int 0, unsigned_array_fields := false,
    indeterminate_local := fun _ => .int 0 }

/-- A program with no pools besides an empty entry function. -/
def bc0_empty : bc0_file :=
  { int_pool := [], string_pool := [], function_pool := [{ num_args := 0, num_vars := 0, code := [] }],
    native_pool := [] }

/-- The memory holding only an empty string pool. -/
def heap0 : Heap := initHeap bc0_empty

/-- A state at an IF_ICMPLT at position 3 with offset bytes FF FD (offset -3) and the
stack `2 5` (5 on top). -/
def st_branch : State :=
  { S := [.int 5, .int 2], P := [0x00, 0x00, 0x00, 0xA1, 0xFF, 0xFD], pc := 3, V := [],
    callStack := [], heap := heap0 }

/-- A state at an IDIV at position 0 with the stack `INT_MIN -1` (-1 on top). -/
def st_idiv : State :=
  { S := [.int (-1), .int INT_MIN], P := [0x6C], pc := 0, V := [], callStack := [], heap := heap0 }

/-- A state at an IDIV at position 0 with the stack `7 2` (2 on top). -/
def st_div72 : State :=
  { S := [.int 2, .int 7], P := [0x6C], pc := 0, V := [], callStack := [], heap := heap0 }

/-- A function of two arguments and three locals with the body `VLOAD 0; RETURN`. -/
def fn_first : function_info := { num_args := 2, num_vars := 3, code := [0x15, 0, 0xB0] }

/-- A program whose entry code is `INVOKESTATIC 1; RETURN` and whose function 1 is `fn_first`. -/
def bc0_call : bc0_file :=
  { int_pool := [], string_pool := [],
    function_pool := [{ num_args := 0, num_vars := 0, code := [0xB8, 0, 1, 0xB0] }, fn_first],
    native_pool := [] }

/-- A state of `bc0_call` at the INVOKESTATIC, the values 1, 7, 9 having been pushed in that
order (9 on top). -/
def st_call : State :=
  { S := [.int 9, .int 7, .int 1], P := [0xB8, 0, 1, 0xB0], pc := 0, V := [], callStack := [],
    heap := heap0 }

/-- A host like `host0` with the array fields declared unsigned. -/
def host_unsigned : Host :=
  { native_function_table := fun _ _ => .int 0, unsigned_array_fields := true,
    indeterminate_local := fun _ => .int 0 }

/-- A program whose entry code is `ILDC 0; NEWARRAY 8; ILDC 1; AADDS; RETURN`, with the
integer pool holding 2^29 + 1 and 2^29: it allocates an array of 2^29 + 1 elements of size 8
and takes the address of the element at index 2^29, the last one. -/
def bc0_big : bc0_file :=
  { int_pool := [536870913, 536870912], string_pool := [],
    function_pool := [{ num_args := 0, num_vars := 0,
                        code := [0x13, 0, 0, 0xBC, 8, 0x13, 0, 1, 0x63, 0xB0] }],
    native_pool := [] }

/-- The state in which `execute` starts on `bc0_big`. -/
def st_big0 : State :=
  { S := [], P := [0x13, 0, 0, 0xBC, 8, 0x13, 0, 1, 0x63, 0xB0], pc := 0, V := [], callStack := [],
    heap := initHeap bc0_big }

/-- The memory that NEWARRAY builds for the count 2^29 + 1 and the element-size byte 8: the
header in block 1 and the zeroed element storage in block 2. -/
def heap_big : Heap :=
  (((((initHeap bc0_big).alloc SIZEOF_C0_ARRAY MemByte.uninit).2.write 1 OFF_COUNT
        (leBytes 4 (toU32 536870913))).write
      1 OFF_ELT_SIZE (leBytes 4 (toU32 8))).alloc (8 * 536870913) (MemByte.byte 0)).2.write
    1 OFF_ELEMS (ptrBytes (.ptr 2 0))

/-- The state of `bc0_big` at its AADDS: the array and the index 2^29 on the stack. -/
def st_aadds_big : State :=
  { S := [.int 536870912, .ptr (.ptr 1 0)], P := [0x13, 0, 0, 0xBC, 8, 0x13, 0, 1, 0x63, 0xB0],
    pc := 8, V := [], callStack := [], heap := heap_big }

/-- A state at a `NEWARRAY 4` with the count 3 on the stack. -/
def st_newarray : State :=
  { S := [.int 3], P := [0xBC, 4, 0xBE], pc := 0, V := [], callStack := [], heap := heap0 }

/-- A state at an IMSTORE with the stack `null 5` (5 on top). -/
def st_imstore_null : State :=
  { S := [.int 5, .ptr .null], P := [0x4E], pc := 0, V := [], callStack := [], heap := heap0 }

/-- A program whose entry code is `BIPUSH 1; NEWARRAY 8; BIPUSH 0; AADDS; ACONST_NULL; AMSTORE`:
it stores the null address in the only element of a new array. -/
def bc0_store : bc0_file :=
  { int_pool := [], string_pool := [],
    function_pool := [{ num_args := 0, num_vars := 0,
                        code := [0x10, 1, 0xBC, 8, 0x10, 0, 0x63, 0x01, 0x4F, 0x10, 0, 0xB0] }],
    native_pool := [] }

/-- The state in which `execute` starts on `bc0_store`. -/
def st_store0 : State :=
  { S := [], P := [0x10, 1, 0xBC, 8, 0x10, 0, 0x63, 0x01, 0x4F, 0x10, 0, 0xB0], pc := 0, V := [],
    callStack := [], heap := initHeap bc0_store }

/-- The state of `bc0_store` at its AMSTORE: the element address `(2, 0)` and, on top, the
null address; the memory is the one NEWARRAY built (header in block 1, one zeroed 8-byte
element in block 2). -/
def st_amstore : State :=
  { S := [.ptr .null, .ptr (.ptr 2 0)],
    P := [0x10, 1, 0xBC, 8, 0x10, 0, 0x63, 0x01, 0x4F, 0x10, 0, 0xB0], pc := 8, V := [],
    callStack := [],
    heap := (((((initHeap bc0_store).alloc SIZEOF_C0_ARRAY MemByte.uninit).2.write 1 OFF_COUNT
        (leBytes 4 (toU32 1))).write 1 OFF_ELT_SIZE (leBytes 4 (toU32 (sext8 8)))).alloc
        (8 * (1 : Int).toNat) (MemByte.byte 0)).2.write 1 OFF_ELEMS (ptrBytes (.ptr 2 0)) }

/-- A program whose entry code is `NEW 8; RETURN`. -/
def bc0_new : bc0_file :=
  { int_pool := [], string_pool := [],
    function_pool := [{ num_args := 0, num_vars := 0, code := [0xBB, 8, 0xB0] }],
    native_pool := [] }

/-- The state in which `execute` starts on `bc0_new`. -/
def st_new0 : State :=
  { S := [], P := [0xBB, 8, 0xB0], pc := 0, V := [], callStack := [], heap := initHeap bc0_new }

/-- The state of `bc0_store` at its AMSTORE with the non-null value `(1, 0)` on top in place
of the null address. -/
def st_amstore_ok : State := { st_amstore with S := [.ptr (.ptr 1 0), .ptr (.ptr 2 0)] }

/-- The entry function of the program for `5 + 3 * 2`. -/
def fn_expr : function_info := { num_args := 0, num_vars := 0, code := exprCode 5 3 2 }

/-- The program for `5 + 3 * 2`. -/
def bc0_expr : bc0_file :=
  { int_pool := [], string_pool := [], function_pool := [fn_expr], native_pool := [] }

/-- A state at an ISHL at position 0 with the stack `1 31` (31 on top). -/
def st_shl : State :=
  { S := [.int 31, .int 1], P := [0x78], pc := 0, V := [], callStack := [], heap := heap0 }

/-- A state at a CMSTORE with the memory of `st_amstore` and the stack `(2, 0) 200`
(200 on top). -/
def st_cmstore : State :=
  { S := [.int 200, .ptr (.ptr 2 0)], P := [0x55, 0x34], pc := 0, V := [], callStack := [],
    heap := st_amstore.heap }

/-- A program whose entry code is `BIPUSH 7; INVOKESTATIC 1; RETURN` and whose function 1,
with one argument and two locals, is `VLOAD 1; RETURN`: it reads its second local, which is
not an argument, without having stored to it. -/
def bc0_locals : bc0_file :=
  { int_pool := [], string_pool := [],
    function_pool := [{ num_args := 0, num_vars := 0, code := [0x10, 7, 0xB8, 0, 1, 0xB0] },
                      { num_args := 1, num_vars := 2, code := [0x15, 1, 0xB0] }],
    native_pool := [] }

/-- The state in which `execute` starts on `bc0_locals`. -/
def st_locals0 : State :=
  { S := [], P := [0x10, 7, 0xB8, 0, 1, 0xB0], pc := 0, V := [], callStack := [],
    heap := initHeap bc0_locals }

/-- The state of `bc0_locals` on entry to function 1. -/
def st_locals_callee : State :=
  { S := [], P := [0x15, 1, 0xB0], pc := 0, V := [some (.int 7), none],
    callStack := [{ S := [], P := [0x10, 7, 0xB8, 0, 1, 0xB0], pc := 5, V := [] }],
    heap := initHeap bc0_locals }

/-- A program whose entry function has one local and the code `VLOAD 0; RETURN`. -/
def bc0_entrylocal : bc0_file :=
  { int_pool := [], string_pool := [],
    function_pool := [{ num_args := 0, num_vars := 1, code := [0x15, 0, 0xB0] }],
    native_pool := [] }

/-- The state in which `execute` starts on `bc0_entrylocal`. -/
def st_entrylocal0 : State :=
  { S := [], P := [0x15, 0, 0xB0], pc := 0, V := [none], callStack := [],
    heap := initHeap bc0_entrylocal }

/-- The function 1 of `bc0_locals`. -/
def fn_second : function_info := { num_args := 1, num_vars := 2, code := [0x15, 1, 0xB0] }

/-- The state of `bc0_locals` at its INVOKESTATIC, 7 having been pushed. -/
def st_locals_call : State :=
  { S := [.int 7], P := [0x10, 7, 0xB8, 0, 1, 0xB0], pc := 2, V := [], callStack := [],
    heap := initHeap bc0_locals }

/-- A program whose entry code is `BIPUSH 1; NEWARRAY 16; BIPUSH 0; AADDS; RETURN`: it creates
an array of one element of 16 bytes and takes the address of that element. -/
def bc0_arr16 : bc0_file :=
  { int_pool := [], string_pool := [],
    function_pool := [{ num_args := 0, num_vars := 0, code := [0x10, 1, 0xBC, 16, 0x10, 0, 0x63, 0xB0] }],
    native_pool := [] }

/-- The state in which `execute` starts on `bc0_arr16`. -/
def st_arr16_0 : State :=
  { S := [], P := [0x10, 1, 0xBC, 16, 0x10, 0, 0x63, 0xB0], pc := 0, V := [], callStack := [],
    heap := initHeap bc0_arr16 }

/-- The state of `bc0_arr16` after its AADDS: the address `(2, 0)` of the element is on the
stack; the memory is the one NEWARRAY built (header in block 1, element storage in block 2). -/
def st_arr16_4 : State :=
  { S := [.ptr (.ptr 2 0)], P := [0x10, 1, 0xBC, 16, 0x10, 0, 0x63, 0xB0], pc := 7, V := [],
    callStack := [],
    heap := (((((initHeap bc0_arr16).alloc SIZEOF_C0_ARRAY MemByte.uninit).2.write 1 OFF_COUNT
        (leBytes 4 (toU32 1))).write 1 OFF_ELT_SIZE (leBytes 4 (toU32 (sext8 16)))).alloc
        (8 * (1 : Int).toNat) (MemByte.byte 0)).2.write 1 OFF_ELEMS (ptrBytes (.ptr 2 0)) }

/-- A program whose entry code is `BIPUSH 2; NEWARRAY 200; BIPUSH 1; AADDS; RETURN`: it creates
an array of two elements with the element-size byte 200 and takes the address of the
element at index 1. -/
def bc0_arr200 : bc0_file :=
  { int_pool := [], string_pool := [],
    function_pool := [{ num_args := 0, num_vars := 0, code := [0x10, 2, 0xBC, 200, 0x10, 1, 0x63, 0xB0] }],
    native_pool := [] }

/-- The state in which `execute` starts on `bc0_arr200`. -/
def st_arr200_0 : State :=
  { S := [], P := [0x10, 2, 0xBC, 200, 0x10, 1, 0x63, 0xB0], pc := 0, V := [], callStack := [],
    heap := initHeap bc0_arr200 }

/-- The state of `bc0_arr200` at its AADDS: the array and the index 1 on the stack. -/
def st_arr200_3 : State :=
  { S := [.int 1, .ptr (.ptr 1 0)], P := [0x10, 2, 0xBC, 200, 0x10, 1, 0x63, 0xB0], pc := 6, V := [],
    callStack := [],
    heap := (((((initHeap bc0_arr200).alloc SIZEOF_C0_ARRAY MemByte.uninit).2.write 1 OFF_COUNT
        (leBytes 4 (toU32 2))).write 1 OFF_ELT_SIZE (leBytes 4 (toU32 (sext8 200)))).alloc
        (8 * (2 : Int).toNat) (MemByte.byte 0)).2.write 1 OFF_ELEMS (ptrBytes (.ptr 2 0)) }

/-- The state in which `execute` starts on the call-chain program for the base value
`INT_MAX`. -/
def st_chain_max : State :=
  { S := [], P := [0x13, 0, 0, 0xB8, 0, 1, 0xB0], pc := 0, V := [], callStack := [],
    heap := initHeap (chainProgram 2147483647) }

/-- A host like `host0` whose allocator hands out, for a new array of locals, a block whose
slot 3 still holds the integer 7 (as when the block is the one that an earlier frame's
locals occupied and that frame had stored 7 in its local 3). -/
def host_stale : Host :=
  { native_function_table := fun _ _ => .int 0, unsigned_array_fields := false,
    indeterminate_local := fun k => if k = 3 then .int 7 else .int 0 }

/-- A program that calls two functions of one argument and four locals in turn.
* function 0: `BIPUSH 0; INVOKESTATIC 1; POP; BIPUSH 0; INVOKESTATIC 2; RETURN`
* function 1: `BIPUSH 7; VSTORE 3; BIPUSH 0; RETURN` stores 7 in its local 3
* function 2: `VLOAD 3; RETURN` reads its local 3 without having stored to it -/
def bc0_stale : bc0_file :=
  { int_pool := [], string_pool := [],
    function_pool :=
      [ { num_args := 0, num_vars := 0,
          code := [0x10, 0, 0xB8, 0, 1, 0x57, 0x10, 0, 0xB8, 0, 2, 0xB0] },
        { num_args := 1, num_vars := 4, code := [0x10, 7, 0x36, 3, 0x10, 0, 0xB0] },
        { num_args := 1, num_vars := 4, code := [0x15, 3, 0xB0] } ],
    native_pool := [] }

/-- The state in which `execute` starts on `bc0_stale`. -/
def st_stale0 : State :=
  { S := [], P := [0x10, 0, 0xB8, 0, 1, 0x57, 0x10, 0, 0xB8, 0, 2, 0xB0], pc := 0, V := [],
    callStack := [], heap := initHeap bc0_stale }

/-- The state of `bc0_stale` on entry to function 2, after nine iterations: only the
argument slot of the new locals has been written. -/
def st_stale_callee : State :=
  { S := [], P := [0x15, 3, 0xB0], pc := 0, V := [some (.int 0), none, none, none],
    callStack := [{ S := [], P := [0x10, 0, 0xB8, 0, 1, 0x57, 0x10, 0, 0xB8, 0, 2, 0xB0],
                    pc := 11, V := [] }],
    heap := initHeap bc0_stale }

/-! ## Basic facts about the embedding -/

theorem byteAt_lt {P : List Nat} {i b : Nat} (hb : byteAt P i = some b) : b < 256 := by
  unfold byteAt at hb
  cases hP : P[i]? with
  | none => simp [hP] at hb
  | some c =>
    simp [hP] at hb
    omega

theorem fetch_of_byteAt {P : List Nat} {i b : Nat} (hb : byteAt P i = some b) :
    fetch P i = .ok b := by
  simp [fetch, hb, orUB]

theorem step_of_opcodeAt (bc0 : bc0_file) (h : Host) (st : State) (op : Opcode)
    (hop : opcodeAt st.P st.pc = some op) : step bc0 h st = execInstr bc0 h op st := by
  unfold opcodeAt at hop
  cases hb : byteAt st.P st.pc with
  | none => simp [hb] at hop
  | some b =>
    simp [hb] at hop
    simp [step, fetch, hb, orUB, hop]

theorem pcAdd_nat (p k : Nat) (hk : p + k < SIZE_MOD) : pcAdd p (k : Int) = p + k := by
  unfold pcAdd
  rw [Int.emod_eq_of_lt (by omega) (by omega)]
  omega

theorem pcAdd_one (p : Nat) (hk : p + 1 < SIZE_MOD) : pcAdd p 1 = p + 1 := by
  simpa using pcAdd_nat p 1 hk

theorem pcAdd_two (p : Nat) (hk : p + 2 < SIZE_MOD) : pcAdd p 2 = p + 2 := by
  simpa using pcAdd_nat p 2 hk

theorem pcAdd_back (p : Nat) (k : Int) : pcAdd (p + 2) (k - 2) = pcAdd p k := by
  unfold pcAdd
  congr 2
  push_cast
  ring

theorem shl8_or (hi lo : Nat) (hlo : lo < 256) : hi <<< 8 ||| lo = 256 * hi + lo := by
  have h1 := Nat.mul_add_lt_is_or (show lo < 2 ^ 8 by omega) hi
  rw [Nat.shiftLeft_eq, Nat.mul_comm hi, ← h1]




theorem takeBranch_eq (P : List Nat) (p hi lo : Nat)
    (hhi : byteAt P (p + 1) = some hi) (hlo : byteAt P (p + 2) = some lo)
    (hp : p + 3 < SIZE_MOD) :
    takeBranch P (p + 1) = .ok (pcAdd p (branchOffset hi lo)) := by
  have h2 : pcAdd (p + 1) 1 = p + 2 := by
    have := pcAdd_nat (p + 1) 1 (by omega)
    simpa using this
  simp only [takeBranch, fetch_of_byteAt hhi, h2, fetch_of_byteAt hlo, bind, Except.bind, pure,
    Except.pure, pcAdd_back]


theorem neg_tmod_eq (a b : Int) : Int.tmod (-a) b = -(Int.tmod a b) := by
  rw [Int.tmod_def, Int.tmod_def, Int.neg_tdiv]
  ring

theorem tmod_bounds_nonneg (a b : Int) (ha : 0 ≤ a) (hb : b ≠ 0) :
    0 ≤ Int.tmod a b ∧ Int.tmod a b < |b| := by
  refine ⟨Int.tmod_nonneg b ha, ?_⟩
  rcases lt_or_gt_of_ne hb with hneg | hpos
  · have h1 := Int.tmod_lt_of_pos a (show 0 < -b by omega)
    rw [Int.tmod_neg] at h1
    rw [abs_of_neg hneg]
    exact h1
  · rw [abs_of_pos hpos]
    exact Int.tmod_lt_of_pos a hpos

theorem tmod_facts (x y : Int) (hy : y ≠ 0) :
    |Int.tmod x y| < |y| ∧ (0 ≤ x → 0 ≤ Int.tmod x y) ∧ (x ≤ 0 → Int.tmod x y ≤ 0) := by
  rcases le_total 0 x with hx | hx
  · obtain ⟨h1, h2⟩ := tmod_bounds_nonneg x y hx hy
    refine ⟨by rw [abs_of_nonneg h1]; exact h2, fun _ => h1, fun hx0 => ?_⟩
    have : x = 0 := le_antisymm hx0 hx
    simp [this]
  · obtain ⟨h1, h2⟩ := tmod_bounds_nonneg (-x) y (by omega) hy
    rw [neg_tmod_eq] at h1 h2
    refine ⟨by rw [abs_of_nonpos (by omega)]; exact h2, fun hx0 => ?_, fun _ => by omega⟩
    have : x = 0 := le_antisymm hx hx0
    simp [this]

theorem tdiv_range (x y : Int) (hx : INT_MIN ≤ x ∧ x ≤ INT_MAX) (hy : y ≠ 0)
    (hxy : ¬ (x = INT_MIN ∧ y = -1)) :
    INT_MIN ≤ Int.tdiv x y ∧ Int.tdiv x y ≤ INT_MAX := by
  unfold INT_MIN INT_MAX at *
  have hq := Int.natAbs_tdiv x y
  have hle : (Int.tdiv x y).natAbs ≤ x.natAbs := by
    rw [hq]; exact Nat.div_le_self _ _
  by_cases h1 : y = -1
  · subst h1
    rw [Int.tdiv_neg, Int.tdiv_one]
    have : x ≠ -2147483648 := fun e => hxy ⟨e, rfl⟩
    omega
  · by_cases h2 : y = 1
    · subst h2
      rw [Int.tdiv_one]; omega
    · have hy2 : 2 ≤ y.natAbs := by omega
      have : (Int.tdiv x y).natAbs ≤ x.natAbs / 2 := by
        rw [hq]
        exact Nat.div_le_div_left hy2 (by norm_num)
      omega

theorem tdiv_mul_nonneg (x y : Int) (hx : 0 ≤ x) : 0 ≤ Int.tdiv x y * y := by
  rcases le_total 0 y with hy | hy
  · exact mul_nonneg (Int.tdiv_nonneg hx hy) hy
  · have := Int.tdiv_nonpos hx hy
    nlinarith

theorem tdiv_mul_abs_le (x y : Int) (hy : y ≠ 0) : |Int.tdiv x y * y| ≤ |x| := by
  have hdef : ∀ a : Int, Int.tdiv a y * y = a - Int.tmod a y := by
    intro a
    have := Int.tdiv_add_tmod' a y
    omega
  rcases le_total 0 x with hx | hx
  · have h1 := tdiv_mul_nonneg x y hx
    have h2 := (tmod_facts x y hy).2.1 hx
    rw [abs_of_nonneg h1, abs_of_nonneg hx, hdef]
    omega
  · have h1 := tdiv_mul_nonneg (-x) y (by omega)
    rw [Int.neg_tdiv] at h1
    have h2 := (tmod_facts x y hy).2.2 hx
    have h3 : Int.tdiv x y * y ≤ 0 := by nlinarith
    rw [abs_of_nonpos h3, abs_of_nonpos hx, hdef]
    omega


theorem popArgs_eq (H : Heap) (rest : List c0_value) :
    ∀ (n : Nat) (V : List (Option c0_value)) (args : List c0_value),
      args.length = n → n ≤ V.length →
      popArgs H n V (args ++ rest) = .ok (args.reverse.map some ++ V.drop n, rest) := by
  intro n
  induction n with
  | zero =>
    intro V args hlen _
    have : args = [] := List.length_eq_zero.mp hlen
    subst this
    simp [popArgs]
  | succ n ih =>
    intro V args hlen hV
    cases args with
    | nil => simp at hlen
    | cons a args =>
      have hlen1 : args.length = n := by simpa using hlen
      have hn : n < V.length := by omega
      simp only [List.cons_append, popArgs, c0v_pop, hn, if_true]
      rw [ih (V.set n (some a)) args hlen1 (by simp; omega)]
      have hd : (V.drop n).set 0 (some a) = some a :: V.drop (n + 1) := by
        rw [List.drop_eq_getElem_cons hn]
        rfl
      rw [List.drop_set, if_neg (Nat.lt_irrefl n), Nat.sub_self, hd]
      simp

theorem fetch16_eq (P : List Nat) (p c1 c2 : Nat)
    (hc1 : byteAt P (p + 1) = some c1) (hc2 : byteAt P (p + 2) = some c2)
    (hp : p + 3 < SIZE_MOD) :
    fetch16 P (p + 1) = .ok (256 * c1 + c2) := by
  have h2 : pcAdd (p + 1) 1 = p + 2 := by
    have := pcAdd_nat (p + 1) 1 (by omega)
    simpa using this
  have hl1 := byteAt_lt hc1
  have hl2 := byteAt_lt hc2
  simp only [fetch16, fetch_of_byteAt hc1, h2, fetch_of_byteAt hc2, bind, Except.bind, pure,
    Except.pure, shl8_or c1 c2 hl2]
  congr 1
  omega

theorem invokestatic_eq (bc0 : bc0_file) (h : Host) (st : State) (c1 c2 : Nat) (g : function_info)
    (args rest : List c0_value)
    (hop : opcodeAt st.P st.pc = some .INVOKESTATIC)
    (hc1 : byteAt st.P (st.pc + 1) = some c1) (hc2 : byteAt st.P (st.pc + 2) = some c2)
    (hp : st.pc + 3 < SIZE_MOD)
    (hg : bc0.function_pool[256 * c1 + c2]? = some g)
    (hvars : g.num_args ≤ g.num_vars)
    (hS : st.S = args ++ rest) (hlen : args.length = g.num_args) :
    step bc0 h st = .ok
      { S := [], P := g.code, pc := 0,
        V := args.reverse.map some ++ List.replicate (g.num_vars - g.num_args) none,
        callStack := { S := rest, P := st.P, pc := st.pc + 3, V := st.V } :: st.callStack,
        heap := st.heap } := by
  have h1 : pcAdd st.pc 1 = st.pc + 1 := pcAdd_one _ (by omega)
  have h3 : pcAdd (st.pc + 1) 2 = st.pc + 3 := by
    have := pcAdd_nat (st.pc + 1) 2 (by omega)
    simpa using this
  rw [step_of_opcodeAt bc0 h st _ hop]
  simp only [execInstr, h1, h3, fetch16_eq st.P st.pc c1 c2 hc1 hc2 hp, hg, orUB, hS, bind,
    Except.bind, pure, Except.pure]
  rw [popArgs_eq st.heap rest g.num_args _ args hlen (by simp [hvars])]
  simp [List.drop_replicate]


theorem eltOffset_exact (h : Host) (s i : Int) (hs : 0 ≤ s) (hi : 0 ≤ i)
    (hsi : s * i < 2147483648) : eltOffset h s i = s * i := by
  have hp : 0 ≤ s * i := mul_nonneg hs hi
  unfold eltOffset
  split
  · by_cases hs0 : s = 0
    · subst hs0; simp [toU32]
    · by_cases hi0 : i = 0
      · subst hi0; simp [toU32]
      · have hs1 : 1 ≤ s := by omega
        have hi1 : 1 ≤ i := by omega
        have hsb : s ≤ s * i := by nlinarith
        have hib : i ≤ s * i := by nlinarith
        have e1 : toU32 s = s.toNat := by
          unfold toU32; rw [Int.emod_eq_of_lt hs (by omega)]
        have e2 : toU32 i = i.toNat := by
          unfold toU32; rw [Int.emod_eq_of_lt hi (by omega)]
        rw [e1, e2]
        have e3 : ((s.toNat * i.toNat : Nat) : Int) = s * i := by
          push_cast
          rw [Int.toNat_of_nonneg hs, Int.toNat_of_nonneg hi]
        have e4 : s.toNat * i.toNat < 4294967296 := by
          have : ((s.toNat * i.toNat : Nat) : Int) < 4294967296 := by rw [e3]; omega
          exact_mod_cast this
        rw [Nat.mod_eq_of_lt e4, e3]
  · unfold wrap32
    omega


theorem write_next (H : Heap) (b : Nat) (off : Int) (bs : List MemByte) :
    (H.write b off bs).next = H.next := rfl

theorem write_size (H : Heap) (b : Nat) (off : Int) (bs : List MemByte) (b1 : Nat) :
    ((H.write b off bs).blocks b1).size = (H.blocks b1).size := by
  unfold Heap.write
  by_cases hb : b1 = b
  · simp [hb]
  · simp [hb]

theorem inBounds_write (H : Heap) (b : Nat) (off : Int) (bs : List MemByte) (b1 : Nat) (o : Int)
    (len : Nat) : (H.write b off bs).inBounds b1 o len = H.inBounds b1 o len := by
  unfold Heap.inBounds
  rw [write_next, write_size]

theorem data_write_same (H : Heap) (b : Nat) (off : Int) (bs : List MemByte) (k : Nat)
    (hk : k < bs.length) :
    ((H.write b off bs).blocks b).data (off + (k : Int)) = bs[k] := by
  have h1 : off ≤ off + (k : Int) ∧ off + (k : Int) < off + (bs.length : Int) := by omega
  have h2 : (off + (k : Int) - off).toNat = k := by omega
  simp only [Heap.write, if_true, h1, h2, and_self]
  simp [List.getD_eq_getElem?_getD, List.getElem?_eq_getElem hk]

theorem data_write_other (H : Heap) (b : Nat) (off : Int) (bs : List MemByte) (b1 : Nat) (o : Int)
    (hd : b1 ≠ b ∨ o < off ∨ off + (bs.length : Int) ≤ o) :
    ((H.write b off bs).blocks b1).data o = (H.blocks b1).data o := by
  unfold Heap.write
  by_cases hb : b1 = b
  · have h1 : ¬ (off ≤ o ∧ o < off + (bs.length : Int)) := by
      rcases hd with h | h | h
      · exact absurd hb h
      · omega
      · omega
    simp [hb, h1]
  · simp [hb]

theorem bytes_write_same (H : Heap) (b : Nat) (off : Int) (bs : List MemByte) :
    (H.write b off bs).bytes b off bs.length = bs := by
  apply List.ext_getElem
  · simp [Heap.bytes]
  · intro k h1 h2
    simp only [Heap.bytes, List.getElem_map, List.getElem_range]
    exact data_write_same H b off bs k h2

theorem bytes_write_other (H : Heap) (b : Nat) (off : Int) (bs : List MemByte) (b1 : Nat) (o : Int)
    (len : Nat) (hd : b1 ≠ b ∨ o + (len : Int) ≤ off ∨ off + (bs.length : Int) ≤ o) :
    (H.write b off bs).bytes b1 o len = H.bytes b1 o len := by
  apply List.ext_getElem
  · simp [Heap.bytes]
  · intro k h1 h2
    have hk : k < len := by simpa [Heap.bytes] using h1
    simp only [Heap.bytes, List.getElem_map, List.getElem_range]
    apply data_write_other
    rcases hd with h | h | h
    · exact Or.inl h
    · right; left; omega
    · right; right; omega

theorem leBytes_length (len n : Nat) : (leBytes len n).length = len := by
  induction len generalizing n with
  | zero => rfl
  | succ k ih => simp [leBytes, ih]

theorem leValue_leBytes4 (m : Nat) : leValue (leBytes 4 m) = some (m % 4294967296) := by
  simp only [leBytes, leValue, Option.map_some']
  congr 1
  omega

theorem wrap32_toU32 (n : Int) (hn : INT_MIN ≤ n ∧ n ≤ INT_MAX) : wrap32 ((toU32 n : Nat) : Int) = n := by
  unfold INT_MIN INT_MAX at hn
  unfold wrap32 toU32
  omega

theorem loadInt_of_bytes (H : Heap) (b : Nat) (off : Int) (n : Int)
    (hb : H.inBounds b off 4 = true) (hbytes : H.bytes b off 4 = leBytes 4 (toU32 n))
    (hn : INT_MIN ≤ n ∧ n ≤ INT_MAX) :
    loadInt H (.ptr b off) = some n := by
  simp only [loadInt]
  rw [hb, if_pos rfl, hbytes, leValue_leBytes4]
  have : toU32 n % 4294967296 = toU32 n := by
    unfold toU32; omega
  simp [this, wrap32_toU32 n hn]

theorem loadInt_write_same (H : Heap) (b : Nat) (off : Int) (n : Int)
    (hb : H.inBounds b off 4 = true) (hn : INT_MIN ≤ n ∧ n ≤ INT_MAX) :
    loadInt (H.write b off (leBytes 4 (toU32 n))) (.ptr b off) = some n := by
  have hlen : (leBytes 4 (toU32 n)).length = 4 := leBytes_length 4 _
  have hbytes := bytes_write_same H b off (leBytes 4 (toU32 n))
  rw [hlen] at hbytes
  exact loadInt_of_bytes _ b off n (by rw [inBounds_write, hb]) hbytes hn

theorem ptrBytes_length (p : Addr) : (ptrBytes p).length = 8 := by
  cases p <;> simp [ptrBytes]

theorem loadPtr_of_bytes (H : Heap) (b : Nat) (off : Int) (p : Addr)
    (hb : H.inBounds b off 8 = true) (hbytes : H.bytes b off 8 = ptrBytes p) :
    loadPtr H (.ptr b off) = some p := by
  simp only [loadPtr]
  rw [hb, if_pos rfl, hbytes]
  cases p with
  | null => simp [ptrBytes, List.replicate]
  | ptr pb po => simp [ptrBytes, List.range, List.range.loop]

theorem loadPtr_write_same (H : Heap) (b : Nat) (off : Int) (p : Addr)
    (hb : H.inBounds b off 8 = true) :
    loadPtr (H.write b off (ptrBytes p)) (.ptr b off) = some p := by
  apply loadPtr_of_bytes
  · rw [inBounds_write, hb]
  · have := bytes_write_same H b off (ptrBytes p)
    rwa [ptrBytes_length] at this

theorem alloc_fst (H : Heap) (sz : Nat) (f : MemByte) : (H.alloc sz f).1 = H.next := rfl

theorem alloc_next (H : Heap) (sz : Nat) (f : MemByte) : (H.alloc sz f).2.next = H.next + 1 := rfl

theorem alloc_block_new (H : Heap) (sz : Nat) (f : MemByte) :
    (H.alloc sz f).2.blocks H.next = { size := sz, data := fun _ => f } := by
  simp [Heap.alloc]

theorem alloc_block_old (H : Heap) (sz : Nat) (f : MemByte) (b : Nat) (hb : b ≠ H.next) :
    (H.alloc sz f).2.blocks b = H.blocks b := by
  simp [Heap.alloc, hb]

theorem inBounds_alloc_new (H : Heap) (sz : Nat) (f : MemByte) (o : Int) (len : Nat)
    (h0 : 0 ≤ o) (h1 : o + (len : Int) ≤ (sz : Int)) :
    (H.alloc sz f).2.inBounds H.next o len = true := by
  simp [Heap.inBounds, alloc_next, alloc_block_new, h0, h1]

theorem inBounds_alloc_old (H : Heap) (sz : Nat) (f : MemByte) (b : Nat) (o : Int) (len : Nat)
    (hb : H.inBounds b o len = true) : (H.alloc sz f).2.inBounds b o len = true := by
  simp only [Heap.inBounds, Bool.and_eq_true, decide_eq_true_eq] at hb ⊢
  have hne : b ≠ H.next := by omega
  rw [alloc_next, alloc_block_old H sz f b hne]
  exact ⟨⟨by omega, hb.1.2⟩, hb.2⟩

theorem bytes_alloc_old (H : Heap) (sz : Nat) (f : MemByte) (b : Nat) (o : Int) (len : Nat)
    (hb : b ≠ H.next) : (H.alloc sz f).2.bytes b o len = H.bytes b o len := by
  simp only [Heap.bytes, alloc_block_old H sz f b hb]


theorem sext8_range (b : Nat) : INT_MIN ≤ sext8 b ∧ sext8 b ≤ INT_MAX := by
  unfold sext8 INT_MIN INT_MAX
  split <;> omega


/-! ## Further facts about machine integers -/

theorem sext8_bounds (b : Nat) : -128 ≤ sext8 b ∧ sext8 b ≤ 127 := by
  unfold sext8
  split <;> omega

theorem sext8_mod (b : Nat) : sext8 (b % 256) = sext8 b := by
  unfold sext8
  simp [Nat.mod_mod]

theorem wrap32_id (x : Int) (hx : INT_MIN ≤ x ∧ x ≤ INT_MAX) : wrap32 x = x := by
  unfold INT_MIN INT_MAX at hx
  unfold wrap32
  omega

theorem mul_bytes_bounds (b c : Int) (hb : -128 ≤ b ∧ b ≤ 127) (hc : -128 ≤ c ∧ c ≤ 127) :
    -16384 ≤ b * c ∧ b * c ≤ 16384 := by
  constructor <;> nlinarith [hb.1, hb.2, hc.1, hc.2]

theorem wrap32_spec (z : Int) :
    (INT_MIN ≤ wrap32 z ∧ wrap32 z ≤ INT_MAX) ∧ (wrap32 z - z) % 4294967296 = 0 := by
  unfold INT_MIN INT_MAX wrap32
  omega

theorem shiftRight_floor (x : Int) (n : Nat) :
    (x >>> n) * 2 ^ n ≤ x ∧ x < (x >>> n + 1) * 2 ^ n := by
  have hpos : (0 : Int) < 2 ^ n := by positivity
  rw [Int.shiftRight_eq_div_pow]
  push_cast
  have h1 := Int.emod_add_ediv x (2 ^ n)
  have h2 := Int.emod_nonneg x (ne_of_gt hpos)
  have h3 := Int.emod_lt_of_pos x hpos
  have h4 : (2 : Int) ^ n * (x / 2 ^ n) = x / 2 ^ n * 2 ^ n := mul_comm _ _
  constructor
  · linarith
  · linarith

theorem land_7f (v : Int) : ((toU32 v &&& 0x7f : Nat) : Int) = v % 128 := by
  have h := Nat.and_pow_two_sub_one_eq_mod (toU32 v) 7
  have h2 : (2 : Nat) ^ 7 - 1 = 0x7f := by norm_num
  rw [h2] at h
  rw [h]
  unfold toU32
  omega

theorem loadChar_write_same (H : Heap) (b : Nat) (off : Int) (n : Nat)
    (hb : H.inBounds b off 1 = true) :
    loadChar (H.write b off [MemByte.byte n]) (.ptr b off) = some (sext8 n) := by
  have hd := data_write_same H b off [MemByte.byte n] 0 (by simp)
  simp only [Nat.cast_zero, add_zero, List.getElem_cons_zero] at hd
  simp only [loadChar, inBounds_write, hb, if_true, hd]

theorem wrap32_add_wrap32 (z k : Int) : wrap32 (wrap32 z + k) = wrap32 (z + k) := by
  unfold wrap32
  omega

theorem pcAdd_small (p : Nat) (hp : p < 100) : pcAdd p 1 = p + 1 ∧ pcAdd p 2 = p + 2 := by
  constructor
  · exact pcAdd_one p (by unfold SIZE_MOD; omega)
  · exact pcAdd_two p (by unfold SIZE_MOD; omega)

/-! ## Conditional branches -/

theorem cmpBranch_eq (cond : c0_value → c0_value → Bool) (st : State) (v1 v2 : c0_value)
    (S : List c0_value) (hi lo : Nat) (hS : st.S = v1 :: v2 :: S)
    (hhi : byteAt st.P (st.pc + 1) = some hi) (hlo : byteAt st.P (st.pc + 2) = some lo)
    (hp : st.pc + 3 < SIZE_MOD) :
    cmpBranch cond st
      = .ok { st with S := S,
                      pc := if cond v1 v2 then pcAdd st.pc (branchOffset hi lo) else st.pc + 3 } := by
  have hb := takeBranch_eq st.P st.pc hi lo hhi hlo hp
  have h1 : pcAdd st.pc 1 = st.pc + 1 := pcAdd_one _ (by omega)
  have h3 : pcAdd (st.pc + 1) 2 = st.pc + 3 := by
    have := pcAdd_nat (st.pc + 1) 2 (by omega)
    simpa using this
  cases hc : cond v1 v2 <;>
    simp [cmpBranch, h1, h3, hb, hS, c0v_pop, hc, bind, Except.bind, pure, Except.pure]

theorem icmpBranch_eq (cond : Int → Int → Bool) (st : State) (x y : Int)
    (S : List c0_value) (hi lo : Nat) (hS : st.S = .int y :: .int x :: S)
    (hhi : byteAt st.P (st.pc + 1) = some hi) (hlo : byteAt st.P (st.pc + 2) = some lo)
    (hp : st.pc + 3 < SIZE_MOD) :
    icmpBranch cond st
      = .ok { st with S := S,
                      pc := if cond x y then pcAdd st.pc (branchOffset hi lo) else st.pc + 3 } := by
  have hb := takeBranch_eq st.P st.pc hi lo hhi hlo hp
  have h1 : pcAdd st.pc 1 = st.pc + 1 := pcAdd_one _ (by omega)
  have h3 : pcAdd (st.pc + 1) 2 = st.pc + 3 := by
    have := pcAdd_nat (st.pc + 1) 2 (by omega)
    simpa using this
  cases hc : cond x y <;>
    simp [icmpBranch, h1, h3, hb, hS, popInt, c0v_pop, val2int, hc, bind, Except.bind, pure,
      Except.pure]

theorem specTaken_cases (op : Opcode) (vx vy : c0_value) (t : Bool)
    (ht : specTaken op vx vy = some t) :
    (op = .IF_CMPEQ ∧ t = decide (vx = vy)) ∨ (op = .IF_CMPNE ∧ t = decide (vx ≠ vy)) ∨
    ∃ x y, vx = .int x ∧ vy = .int y ∧
      ((op = .IF_ICMPLT ∧ t = decide (x < y)) ∨ (op = .IF_ICMPGE ∧ t = decide (x ≥ y)) ∨
       (op = .IF_ICMPGT ∧ t = decide (x > y)) ∨ (op = .IF_ICMPLE ∧ t = decide (x ≤ y))) := by
  cases op <;> cases vx <;> cases vy <;> simp [specTaken] at ht <;> simp [ht]

/-! ## The call stack and the program counter, instruction by instruction -/

/-- C1. Branch arithmetic.  For an instruction at position `p = st.pc` with operand bytes
`hi`, `lo`, let `off` be the signed 16-bit value of `hi << 8 | lo` (`branchOffset hi lo`).
GOTO, and each of IF_CMPEQ, IF_CMPNE, IF_ICMPLT, IF_ICMPGE, IF_ICMPGT, IF_ICMPLE when its
test holds, sets `pc` to `p + off` computed in `size_t`, that is `(p + off) mod 2^64`, which
is exactly `p + off` whenever that is a value of `size_t` (in particular `p` itself for
`off = 0`, and a smaller position for negative `off`); a conditional branch whose test
fails sets `pc` to exactly `p + 3`. -/
theorem branch_pc (bc0 : bc0_file) (h : Host) (st : State) (hi lo : Nat)
    (hhi : byteAt st.P (st.pc + 1) = some hi) (hlo : byteAt st.P (st.pc + 2) = some lo)
    (hp : st.pc + 3 < SIZE_MOD) :
    (branchOffset hi lo = wrap16 (256 * (hi : Int) + (lo : Int))) ∧
    (branchOffset hi lo = 0 → pcAdd st.pc (branchOffset hi lo) = st.pc) ∧
    ((pcAdd st.pc (branchOffset hi lo) : Int)
        = ((st.pc : Int) + branchOffset hi lo) % 18446744073709551616) ∧
    (0 ≤ (st.pc : Int) + branchOffset hi lo →
      (st.pc : Int) + branchOffset hi lo < 18446744073709551616 →
        ((pcAdd st.pc (branchOffset hi lo) : Nat) : Int)
          = (st.pc : Int) + branchOffset hi lo) ∧
    (opcodeAt st.P st.pc = some .GOTO →
        step bc0 h st = .ok { st with pc := pcAdd st.pc (branchOffset hi lo) }) ∧
    (∀ v1 v2 S, st.S = v1 :: v2 :: S →
      (opcodeAt st.P st.pc = some .IF_CMPEQ →
        step bc0 h st = .ok { st with S := S, pc := if v1 = v2 then pcAdd st.pc (branchOffset hi lo) else st.pc + 3 }) ∧
      (opcodeAt st.P st.pc = some .IF_CMPNE →
        step bc0 h st = .ok { st with S := S, pc := if v1 ≠ v2 then pcAdd st.pc (branchOffset hi lo) else st.pc + 3 })) ∧
    (∀ x y S, st.S = .int y :: .int x :: S →
      (opcodeAt st.P st.pc = some .IF_ICMPLT →
        step bc0 h st = .ok { st with S := S, pc := if x < y then pcAdd st.pc (branchOffset hi lo) else st.pc + 3 }) ∧
      (opcodeAt st.P st.pc = some .IF_ICMPGE →
        step bc0 h st = .ok { st with S := S, pc := if x ≥ y then pcAdd st.pc (branchOffset hi lo) else st.pc + 3 }) ∧
      (opcodeAt st.P st.pc = some .IF_ICMPGT →
        step bc0 h st = .ok { st with S := S, pc := if x > y then pcAdd st.pc (branchOffset hi lo) else st.pc + 3 }) ∧
      (opcodeAt st.P st.pc = some .IF_ICMPLE →
        step bc0 h st = .ok { st with S := S, pc := if x ≤ y then pcAdd st.pc (branchOffset hi lo) else st.pc + 3 })) := by
  have hlo256 := byteAt_lt hlo
  have hhi256 := byteAt_lt hhi
  have hb := takeBranch_eq st.P st.pc hi lo hhi hlo hp
  have h1 : pcAdd st.pc 1 = st.pc + 1 := pcAdd_one _ (by omega)
  have h3 : pcAdd (st.pc + 1) 2 = st.pc + 3 := by
    have := pcAdd_nat (st.pc + 1) 2 (by omega)
    simpa using this
  refine ⟨?_, ?_, ?_, ?_, ?_, ?_, ?_⟩
  · unfold branchOffset
    rw [shl8_or hi lo hlo256]
    norm_num
  · intro h0
    rw [h0]
    simpa using pcAdd_nat st.pc 0 (by omega)
  · unfold pcAdd SIZE_MOD
    rw [Int.toNat_of_nonneg (Int.emod_nonneg _ (by norm_num))]
    norm_num
  · intro h0 h1
    unfold pcAdd SIZE_MOD
    rw [Int.toNat_of_nonneg (Int.emod_nonneg _ (by norm_num))]
    exact Int.emod_eq_of_lt h0 (by simpa using h1)
  · intro hop
    rw [step_of_opcodeAt bc0 h st _ hop]
    simp only [execInstr, h1, hb, bind, Except.bind, pure, Except.pure]
  · intro v1 v2 S hS
    constructor
    · intro hop
      rw [step_of_opcodeAt bc0 h st _ hop]
      by_cases hv : v1 = v2 <;>
        simp [execInstr, cmpBranch, h1, h3, hb, hS, c0v_pop, val_equal, hv, bind, Except.bind, pure, Except.pure]
    · intro hop
      rw [step_of_opcodeAt bc0 h st _ hop]
      by_cases hv : v1 = v2 <;>
        simp [execInstr, cmpBranch, h1, h3, hb, hS, c0v_pop, val_equal, hv, bind, Except.bind, pure, Except.pure]
  · intro x y S hS
    refine ⟨?_, ?_, ?_, ?_⟩
    · intro hop
      rw [step_of_opcodeAt bc0 h st _ hop]
      by_cases hv : x < y <;>
        simp [execInstr, icmpBranch, h1, h3, hb, hS, popInt, c0v_pop, val2int, hv, bind, Except.bind, pure, Except.pure]
    · intro hop
      rw [step_of_opcodeAt bc0 h st _ hop]
      by_cases hv : x ≥ y <;>
        simp [execInstr, icmpBranch, h1, h3, hb, hS, popInt, c0v_pop, val2int, hv, bind, Except.bind, pure, Except.pure]
    · intro hop
      rw [step_of_opcodeAt bc0 h st _ hop]
      by_cases hv : x > y <;>
        simp [execInstr, icmpBranch, h1, h3, hb, hS, popInt, c0v_pop, val2int, hv, bind, Except.bind, pure, Except.pure]
    · intro hop
      rw [step_of_opcodeAt bc0 h st _ hop]
      by_cases hv : x ≤ y <;>
        simp [execInstr, icmpBranch, h1, h3, hb, hS, popInt, c0v_pop, val2int, hv, bind, Except.bind, pure, Except.pure]

/-- Witness for C1: an IF_ICMPLT at position 3 with offset -3 and stack `2 5` is taken and
sets pc to 0. -/
theorem branch_pc_witness :
    byteAt st_branch.P (st_branch.pc + 1) = some 0xFF ∧
    byteAt st_branch.P (st_branch.pc + 2) = some 0xFD ∧
    st_branch.pc + 3 < SIZE_MOD ∧
    step bc0_empty host0 st_branch = .ok { st_branch with S := [], pc := 0 } :=
  ⟨rfl, rfl, by decide,
    ((branch_pc bc0_empty host0 st_branch 0xFF 0xFD rfl rfl (by decide)).2.2.2.2.2.2 2 5 [] rfl).1 rfl⟩

/-- C2. Arithmetic errors.  With the operand stack `... x y` (`y` on top): IDIV and IREM
raise ArithmeticError exactly when `y = 0` or (`x = INT_MIN` and `y = -1`); ISHL and ISHR
raise ArithmeticError exactly when `y < 0` or `y >= 32`; in every other case these four
push a result in place of `x y` and continue; IADD, ISUB, IMUL, IAND, IOR and IXOR push a
result and continue for every `x` and `y`. -/
theorem arith_errors (bc0 : bc0_file) (h : Host) (st : State) (x y : Int) (S : List c0_value)
    (hS : st.S = .int y :: .int x :: S) :
    (∀ op, op = Opcode.IDIV ∨ op = Opcode.IREM → opcodeAt st.P st.pc = some op →
      ((y = 0 ∨ (x = INT_MIN ∧ y = -1)) →
        step bc0 h st = .error (.error .ArithmeticError st.heap)) ∧
      (¬ (y = 0 ∨ (x = INT_MIN ∧ y = -1)) →
        ∃ r, step bc0 h st = .ok { st with pc := pcAdd st.pc 1, S := .int r :: S })) ∧
    (∀ op, op = Opcode.ISHL ∨ op = Opcode.ISHR → opcodeAt st.P st.pc = some op →
      ((y < 0 ∨ y ≥ 32) →
        step bc0 h st = .error (.error .ArithmeticError st.heap)) ∧
      (¬ (y < 0 ∨ y ≥ 32) →
        ∃ r, step bc0 h st = .ok { st with pc := pcAdd st.pc 1, S := .int r :: S })) ∧
    (∀ op, op = Opcode.IADD ∨ op = Opcode.ISUB ∨ op = Opcode.IMUL ∨ op = Opcode.IAND ∨
        op = Opcode.IOR ∨ op = Opcode.IXOR → opcodeAt st.P st.pc = some op →
      ∃ r, step bc0 h st = .ok { st with pc := pcAdd st.pc 1, S := .int r :: S }) := by
  refine ⟨?_, ?_, ?_⟩
  · intro op hop hat
    rw [step_of_opcodeAt bc0 h st op hat]
    constructor
    · intro hc
      rcases hop with rfl | rfl <;>
        · simp only [execInstr, divop, popInt, c0v_pop, val2int, hS, bind, Except.bind, raise]
          by_cases hy : y = 0
          · simp [hy]
          · rcases hc with hc | hc
            · exact absurd hc hy
            · simp [hy, hc]
    · intro hc
      have hy : ¬ y = 0 := fun e => hc (Or.inl e)
      have hxy : ¬ (x = INT_MIN ∧ y = -1) := fun e => hc (Or.inr e)
      rcases hop with rfl | rfl <;>
        · simp only [execInstr, divop, popInt, c0v_pop, val2int, hS, bind, Except.bind, raise]
          simp only [hy, hxy, if_false]
          exact ⟨_, rfl⟩
  · intro op hop hat
    rw [step_of_opcodeAt bc0 h st op hat]
    constructor
    · intro hc
      rcases hop with rfl | rfl <;>
        · simp only [execInstr, shiftop, popInt, c0v_pop, val2int, hS, bind, Except.bind, raise]
          by_cases hy : y ≥ 32
          · simp [hy]
          · rcases hc with hc | hc
            · simp [hy, hc]
            · exact absurd hc hy
    · intro hc
      have hy : ¬ y ≥ 32 := fun e => hc (Or.inr e)
      have hy0 : ¬ y < 0 := fun e => hc (Or.inl e)
      rcases hop with rfl | rfl <;>
        · simp only [execInstr, shiftop, popInt, c0v_pop, val2int, hS, bind, Except.bind, raise]
          simp only [hy, hy0, if_false]
          exact ⟨_, rfl⟩
  · intro op hop hat
    rw [step_of_opcodeAt bc0 h st op hat]
    rcases hop with rfl | rfl | rfl | rfl | rfl | rfl <;>
      · simp only [execInstr, binop, popInt, c0v_pop, val2int, hS, bind, Except.bind,
          pure, Except.pure, int2val]
        exact ⟨_, rfl⟩

/-- Witness for C2: IDIV on `INT_MIN -1` raises ArithmeticError. -/
theorem arith_errors_witness :
    st_idiv.S = .int (-1) :: .int INT_MIN :: [] ∧
    step bc0_empty host0 st_idiv = .error (.error .ArithmeticError st_idiv.heap) :=
  ⟨rfl, ((arith_errors bc0_empty host0 st_idiv INT_MIN (-1) [] rfl).1 Opcode.IDIV (Or.inl rfl) rfl).1
    (Or.inr ⟨rfl, rfl⟩)⟩

/-- C3. Truncating division.  For 32-bit integers `x`, `y` with `y != 0` and not
(`x = INT_MIN` and `y = -1`), on the stack `... x y` (`y` on top): IDIV replaces them by
the quotient `q` truncated toward zero (`q * y` lies between 0 and `x`, less than `|y|`
away from `x`) and IREM by `r = x - q * y`, where `|r| < |y|` and `r` is zero or has the
sign of `x`; both results are 32-bit integers.  For (7, 2) this is 3 and 1, for (-7, 2) it
is -3 and -1. -/
theorem div_rem_trunc (bc0 : bc0_file) (h : Host) (st : State) (x y : Int) (S : List c0_value)
    (hS : st.S = .int y :: .int x :: S)
    (hx : INT_MIN ≤ x ∧ x ≤ INT_MAX) (hyr : INT_MIN ≤ y ∧ y ≤ INT_MAX)
    (hy : y ≠ 0) (hxy : ¬ (x = INT_MIN ∧ y = -1)) :
    ∃ q r : Int,
      (opcodeAt st.P st.pc = some .IDIV →
        step bc0 h st = .ok { st with pc := pcAdd st.pc 1, S := .int q :: S }) ∧
      (opcodeAt st.P st.pc = some .IREM →
        step bc0 h st = .ok { st with pc := pcAdd st.pc 1, S := .int r :: S }) ∧
      r = x - q * y ∧ |r| < |y| ∧ (r = 0 ∨ (0 < r ∧ 0 < x) ∨ (r < 0 ∧ x < 0)) ∧
      |q * y| ≤ |x| ∧
      (INT_MIN ≤ q ∧ q ≤ INT_MAX) ∧ (INT_MIN ≤ r ∧ r ≤ INT_MAX) ∧
      (x = 7 → y = 2 → q = 3 ∧ r = 1) ∧ (x = -7 → y = 2 → q = -3 ∧ r = -1) := by
  have hg : ¬ (y = 0 ∨ (x = INT_MIN ∧ y = -1)) := by
    rintro (e | e)
    · exact hy e
    · exact hxy e
  have hf := tmod_facts x y hy
  have hq := tdiv_range x y hx hy hxy
  refine ⟨Int.tdiv x y, Int.tmod x y, ?_, ?_, ?_, hf.1, ?_, tdiv_mul_abs_le x y hy, hq, ?_, ?_, ?_⟩
  · intro hat
    rw [step_of_opcodeAt bc0 h st _ hat]
    simp only [execInstr, divop, popInt, c0v_pop, val2int, hS, bind, Except.bind, raise, hy, hxy,
      if_false, pure, Except.pure, int2val]
  · intro hat
    rw [step_of_opcodeAt bc0 h st _ hat]
    simp only [execInstr, divop, popInt, c0v_pop, val2int, hS, bind, Except.bind, raise, hy, hxy,
      if_false, pure, Except.pure, int2val]
  · have := Int.tdiv_add_tmod' x y
    omega
  · rcases lt_trichotomy x 0 with hneg | hzero | hpos
    · have := hf.2.2 (le_of_lt hneg)
      rcases lt_or_eq_of_le this with h1 | h1
      · exact Or.inr (Or.inr ⟨h1, hneg⟩)
      · exact Or.inl h1
    · subst hzero
      exact Or.inl (by simp)
    · have := hf.2.1 (le_of_lt hpos)
      rcases lt_or_eq_of_le this with h1 | h1
      · exact Or.inr (Or.inl ⟨h1, hpos⟩)
      · exact Or.inl h1.symm
  · have h1 := hf.1
    have h2 := abs_lt.mp h1
    unfold INT_MIN INT_MAX at *
    have h3 : |y| ≤ 2147483648 := by
      rw [abs_le]; omega
    omega
  · intro e1 e2
    subst e1 e2
    decide
  · intro e1 e2
    subst e1 e2
    decide

/-- Witness for C3: IDIV on the stack `7 2` pushes 3. -/
theorem div_rem_trunc_witness :
    st_div72.S = .int 2 :: .int 7 :: [] ∧ (INT_MIN ≤ (7 : Int) ∧ (7 : Int) ≤ INT_MAX) ∧
    (INT_MIN ≤ (2 : Int) ∧ (2 : Int) ≤ INT_MAX) ∧ (2 : Int) ≠ 0 ∧ ¬ ((7 : Int) = INT_MIN ∧ (2 : Int) = -1) ∧
    ∃ q r : Int,
      (opcodeAt st_div72.P st_div72.pc = some .IDIV →
        step bc0_empty host0 st_div72
          = .ok { st_div72 with pc := pcAdd st_div72.pc 1, S := .int q :: [] }) ∧
      (opcodeAt st_div72.P st_div72.pc = some .IREM →
        step bc0_empty host0 st_div72
          = .ok { st_div72 with pc := pcAdd st_div72.pc 1, S := .int r :: [] }) ∧
      r = 7 - q * 2 ∧ |r| < |(2 : Int)| ∧ (r = 0 ∨ (0 < r ∧ 0 < (7 : Int)) ∨ (r < 0 ∧ (7 : Int) < 0)) ∧
      |q * 2| ≤ |(7 : Int)| ∧
      (INT_MIN ≤ q ∧ q ≤ INT_MAX) ∧ (INT_MIN ≤ r ∧ r ≤ INT_MAX) ∧
      ((7 : Int) = 7 → (2 : Int) = 2 → q = 3 ∧ r = 1) ∧ ((7 : Int) = -7 → (2 : Int) = 2 → q = -3 ∧ r = -1) :=
  ⟨rfl, by decide, by decide, by decide, by decide,
    div_rem_trunc bc0_empty host0 st_div72 7 2 [] rfl (by decide) (by decide) (by decide) (by decide)⟩

/-- C4. Call/return round trip.  Let `g` be the function of the pool that an INVOKESTATIC
at position `p = st.pc` names, with `n = g.num_args <= g.num_vars` and with the body
`VLOAD i; RETURN` for some `i < n`, and let the caller's stack hold the `n` values `args`
above `rest`.  Then the call installs a value `v` in local `i` of the callee (the call
stack being one frame deeper), and after three steps (the call, VLOAD and RETURN) the
machine is the caller's state with the `n` arguments replaced by `v` and `pc = p + 3`:
code, locals, call stack (hence its depth) and memory are those before the call. -/
theorem call_return_roundtrip (bc0 : bc0_file) (h : Host) (st : State) (c1 c2 i : Nat)
    (g : function_info) (args rest : List c0_value)
    (hop : opcodeAt st.P st.pc = some .INVOKESTATIC)
    (hc1 : byteAt st.P (st.pc + 1) = some c1) (hc2 : byteAt st.P (st.pc + 2) = some c2)
    (hp : st.pc + 3 < SIZE_MOD)
    (hg : bc0.function_pool[256 * c1 + c2]? = some g)
    (hvars : g.num_args ≤ g.num_vars)
    (hb0 : opcodeAt g.code 0 = some .VLOAD) (hb1 : byteAt g.code 1 = some i)
    (hb2 : opcodeAt g.code 2 = some .RETURN) (hi : i < g.num_args)
    (hS : st.S = args ++ rest) (hlen : args.length = g.num_args) :
    ∃ (mid : State) (v : c0_value),
      step bc0 h st = .ok mid ∧ mid.V[i]? = some (some v) ∧
      mid.callStack.length = st.callStack.length + 1 ∧
      args.reverse[i]? = some v ∧
      steps bc0 h 3 st = .ok { st with pc := st.pc + 3, S := v :: rest } := by
  have hcall := invokestatic_eq bc0 h st c1 c2 g args rest hop hc1 hc2 hp hg hvars hS hlen
  have hir : i < args.reverse.length := by simp [hlen, hi]
  have hv : (args.reverse.map some ++ List.replicate (g.num_vars - g.num_args) none)[i]?
      = some (some args.reverse[i]) := by
    rw [List.getElem?_append_left (by simpa using hir), List.getElem?_map,
      List.getElem?_eq_getElem hir]
    rfl
  refine ⟨_, args.reverse[i], hcall, hv, by simp, List.getElem?_eq_getElem hir, ?_⟩
  have h01 : pcAdd 0 1 = 1 := by decide
  have h12 : pcAdd 1 1 = 2 := by decide
  have hload : step bc0 h
      { S := [], P := g.code, pc := 0,
        V := args.reverse.map some ++ List.replicate (g.num_vars - g.num_args) none,
        callStack := { S := rest, P := st.P, pc := st.pc + 3, V := st.V } :: st.callStack,
        heap := st.heap }
      = .ok
      { S := [args.reverse[i]], P := g.code, pc := 2,
        V := args.reverse.map some ++ List.replicate (g.num_vars - g.num_args) none,
        callStack := { S := rest, P := st.P, pc := st.pc + 3, V := st.V } :: st.callStack,
        heap := st.heap } := by
    rw [step_of_opcodeAt bc0 h _ _ hb0]
    simp only [execInstr, h01, h12, fetch_of_byteAt hb1, hv, orUB, slotValue, bind, Except.bind,
      pure, Except.pure]
  have hret : step bc0 h
      { S := [args.reverse[i]], P := g.code, pc := 2,
        V := args.reverse.map some ++ List.replicate (g.num_vars - g.num_args) none,
        callStack := { S := rest, P := st.P, pc := st.pc + 3, V := st.V } :: st.callStack,
        heap := st.heap }
      = .ok { st with pc := st.pc + 3, S := args.reverse[i] :: rest } := by
    rw [step_of_opcodeAt bc0 h _ _ hb2]
    simp [execInstr, c0v_pop, bind, Except.bind, pure, Except.pure]
  simp only [steps, hcall, hload, hret]

/-- Witness for C4: the entry code `INVOKESTATIC 1` with the stack `7 9` calls a function of
two arguments that returns its first local, and resumes with the stack `7`. -/
theorem call_return_roundtrip_witness :
    opcodeAt st_call.P st_call.pc = some .INVOKESTATIC ∧
    byteAt st_call.P (st_call.pc + 1) = some 0 ∧ byteAt st_call.P (st_call.pc + 2) = some 1 ∧
    st_call.pc + 3 < SIZE_MOD ∧
    bc0_call.function_pool[256 * 0 + 1]? = some fn_first ∧
    fn_first.num_args ≤ fn_first.num_vars ∧
    opcodeAt fn_first.code 0 = some .VLOAD ∧ byteAt fn_first.code 1 = some 0 ∧
    opcodeAt fn_first.code 2 = some .RETURN ∧ 0 < fn_first.num_args ∧
    st_call.S = [.int 9, .int 7] ++ [.int 1] ∧ [c0_value.int 9, c0_value.int 7].length = fn_first.num_args ∧
    ∃ (mid : State) (v : c0_value),
      step bc0_call host0 st_call = .ok mid ∧ mid.V[0]? = some (some v) ∧
      mid.callStack.length = st_call.callStack.length + 1 ∧
      [c0_value.int 9, c0_value.int 7].reverse[0]? = some v ∧
      steps bc0_call host0 3 st_call = .ok { st_call with pc := st_call.pc + 3, S := v :: [.int 1] } :=
  ⟨rfl, rfl, rfl, by decide, rfl, by decide, rfl, rfl, rfl, by decide, rfl, rfl,
    call_return_roundtrip bc0_call host0 st_call 0 1 0 fn_first [.int 9, .int 7] [.int 1]
      rfl rfl rfl (by decide) rfl (by decide) rfl rfl rfl (by decide) rfl rfl⟩

/-- C5, the claim as stated fails: with the values 1, 7, 9 pushed in that order (9 on top)
and a callee of two arguments, the value on top of the caller's stack does not become the
callee's local `V[0]` (which receives 7). -/
theorem arg_order_counterexample :
    ¬ (∀ mid, step bc0_call host0 st_call = .ok mid → mid.V[0]? = (st_call.S.head?).map some) := by
  intro hc
  have hstep : step bc0_call host0 st_call = .ok
      { S := [], P := fn_first.code, pc := 0, V := [some (.int 7), some (.int 9), none],
        callStack := [{ S := [.int 1], P := st_call.P, pc := 3, V := [] }], heap := heap0 } := rfl
  have h0 := hc _ hstep
  revert h0
  decide

/-- C5 as amended.  INVOKESTATIC of a function with `n` declared arguments (at most its
declared locals), on a caller stack holding the `n` values `args` (top first) above `rest`,
starts the callee at pc 0 with an empty stack and with the popped values in its leading
locals in the order in which they were pushed: the value on top of the caller's stack (the
last pushed) becomes `V[n-1]`, and the argument pushed `k`-th from last becomes `V[n-k]`,
so the first pushed argument is `V[0]`. -/
theorem arg_order (bc0 : bc0_file) (h : Host) (st : State) (c1 c2 : Nat) (g : function_info)
    (args rest : List c0_value)
    (hop : opcodeAt st.P st.pc = some .INVOKESTATIC)
    (hc1 : byteAt st.P (st.pc + 1) = some c1) (hc2 : byteAt st.P (st.pc + 2) = some c2)
    (hp : st.pc + 3 < SIZE_MOD)
    (hg : bc0.function_pool[256 * c1 + c2]? = some g)
    (hvars : g.num_args ≤ g.num_vars)
    (hS : st.S = args ++ rest) (hlen : args.length = g.num_args) :
    ∃ mid : State,
      step bc0 h st = .ok mid ∧ mid.S = [] ∧ mid.pc = 0 ∧ mid.P = g.code ∧
      mid.V.length = g.num_vars ∧
      (∀ k, 1 ≤ k → k ≤ g.num_args → mid.V[g.num_args - k]? = (args[k - 1]?).map some) ∧
      (0 < g.num_args → mid.V[g.num_args - 1]? = (st.S.head?).map some) := by
  have hcall := invokestatic_eq bc0 h st c1 c2 g args rest hop hc1 hc2 hp hg hvars hS hlen
  have hk : ∀ k, 1 ≤ k → k ≤ g.num_args →
      (args.reverse.map some ++ List.replicate (g.num_vars - g.num_args) none)[g.num_args - k]?
        = (args[k - 1]?).map some := by
    intro k hk1 hk2
    have hlt : g.num_args - k < args.length := by omega
    rw [List.getElem?_append_left (by simpa using hlt), List.getElem?_map,
      List.getElem?_reverse hlt]
    congr 2
    omega
  refine ⟨_, hcall, rfl, rfl, rfl, ?_, hk, ?_⟩
  · simp [hlen]
    omega
  · intro hn
    have h1 := hk 1 (le_refl 1) hn
    rw [h1, hS]
    cases args with
    | nil => simp at hlen; omega
    | cons a args => simp

/-- Witness for C5 as amended: in `st_call` the callee gets `V[0] = 7` and `V[1] = 9`. -/
theorem arg_order_witness :
    opcodeAt st_call.P st_call.pc = some .INVOKESTATIC ∧
    byteAt st_call.P (st_call.pc + 1) = some 0 ∧ byteAt st_call.P (st_call.pc + 2) = some 1 ∧
    st_call.pc + 3 < SIZE_MOD ∧
    bc0_call.function_pool[256 * 0 + 1]? = some fn_first ∧
    fn_first.num_args ≤ fn_first.num_vars ∧
    st_call.S = [.int 9, .int 7] ++ [.int 1] ∧ [c0_value.int 9, c0_value.int 7].length = fn_first.num_args ∧
    ∃ mid : State,
      step bc0_call host0 st_call = .ok mid ∧ mid.S = [] ∧ mid.pc = 0 ∧ mid.P = fn_first.code ∧
      mid.V.length = fn_first.num_vars ∧
      (∀ k, 1 ≤ k → k ≤ fn_first.num_args →
        mid.V[fn_first.num_args - k]? = ([c0_value.int 9, c0_value.int 7][k - 1]?).map some) ∧
      (0 < fn_first.num_args → mid.V[fn_first.num_args - 1]? = (st_call.S.head?).map some) :=
  ⟨rfl, rfl, rfl, by decide, rfl, by decide, rfl, rfl,
    arg_order bc0_call host0 st_call 0 1 fn_first [.int 9, .int 7] [.int 1]
      rfl rfl rfl (by decide) rfl (by decide) rfl rfl⟩

/-- C6, the code at a failing input: the program `bc0_big` creates an array of count
2^29 + 1 with element size 8, whose element base is `(2, 0)` and whose storage has
`8 * (2^29 + 1)` bytes.  AADDS at the index 2^29, which is inside the array and accepted by
the bounds check, pushes the base itself, the address of element 0, and not the address
`2^29 * 8` bytes after the base: the product `a->elt_size * index` is computed in 32 bits
and wraps to 0, whether the array fields are signed or unsigned. -/
theorem aadds_overflow_failing :
    initState bc0_big = some st_big0 ∧
    steps bc0_big host0 3 st_big0 = .ok st_aadds_big ∧
    steps bc0_big host_unsigned 3 st_big0 = .ok st_aadds_big ∧
    loadInt st_aadds_big.heap (.ptr 1 (0 + OFF_COUNT)) = some 536870913 ∧
    loadInt st_aadds_big.heap (.ptr 1 (0 + OFF_ELT_SIZE)) = some 8 ∧
    loadPtr st_aadds_big.heap (.ptr 1 (0 + OFF_ELEMS)) = some (.ptr 2 0) ∧
    (st_aadds_big.heap.blocks 2).size = 8 * 536870913 ∧
    st_aadds_big.S = [.int 536870912, .ptr (.ptr 1 0)] ∧
    ((0 : Int) ≤ 536870912 ∧ (536870912 : Int) < 536870913) ∧
    step bc0_big host0 st_aadds_big
      = .ok { st_aadds_big with pc := 9, S := [.ptr (.ptr 2 0)] } ∧
    step bc0_big host_unsigned st_aadds_big
      = .ok { st_aadds_big with pc := 9, S := [.ptr (.ptr 2 0)] } ∧
    Addr.ptr 2 0 ≠ Addr.ptr 2 (0 + 536870912 * 8) :=
  ⟨rfl, rfl, rfl, rfl, rfl, rfl, rfl, rfl, by decide, rfl, rfl, by decide⟩

/-- What AADDS does on an array, for every host.  For a non-null array `a` whose header
holds the count `c`, the element size `s` and the non-null element base `e`, and an index
`i` on top of the stack above `a`: if `0 <= i <= c` AADDS replaces both by the address
`e + off` and does not raise, where `off` is the 32-bit product of `s` and `i` that the
source computes (`eltOffset`), equal to `i * s` whenever `s >= 0` and `i * s < 2^31`; so
the index `c`, one past the end, succeeds.  If `i < 0` or `i > c` (in particular `i = -1`
and `i = c + 1`) it raises MemoryError, pushes nothing and leaves the memory as it was. -/
theorem aadds_bounds (bc0 : bc0_file) (h : Host) (st : State) (i c s : Int) (b : Nat) (off : Int)
    (eb : Nat) (eo : Int) (S : List c0_value)
    (hS : st.S = .int i :: .ptr (.ptr b off) :: S)
    (hc : loadInt st.heap (.ptr b (off + OFF_COUNT)) = some c)
    (hs : loadInt st.heap (.ptr b (off + OFF_ELT_SIZE)) = some s)
    (he : loadPtr st.heap (.ptr b (off + OFF_ELEMS)) = some (.ptr eb eo))
    (hop : opcodeAt st.P st.pc = some .AADDS) :
    (0 ≤ i ∧ i ≤ c →
      step bc0 h st
        = .ok { st with pc := pcAdd st.pc 1, S := .ptr (.ptr eb (eo + eltOffset h s i)) :: S }) ∧
    (i < 0 ∨ i > c → step bc0 h st = .error (.error .MemoryError st.heap)) ∧
    (i = c → 0 ≤ c → step bc0 h st
        = .ok { st with pc := pcAdd st.pc 1, S := .ptr (.ptr eb (eo + eltOffset h s c)) :: S }) ∧
    (i = c + 1 ∨ i = -1 → 0 ≤ c → step bc0 h st = .error (.error .MemoryError st.heap)) ∧
    (0 ≤ s → 0 ≤ i → s * i < 2147483648 → eltOffset h s i = i * s) := by
  rw [step_of_opcodeAt bc0 h st _ hop]
  have hin : (0 ≤ i ∧ i ≤ c →
      execInstr bc0 h .AADDS st
        = .ok { st with pc := pcAdd st.pc 1, S := .ptr (.ptr eb (eo + eltOffset h s i)) :: S }) := by
    rintro ⟨h0, h1⟩
    have hg : ¬ (i < 0 ∨ i > c) := by omega
    simp only [execInstr, popInt, popPtr, c0v_pop, val2int, val2ptr, hS, fieldAddr, hc, hs, he,
      orUB, ptrAdd, bind, Except.bind, pure, Except.pure, raise, hg, if_false, ptr2val]
    simp
  have hout : (i < 0 ∨ i > c → execInstr bc0 h .AADDS st = .error (.error .MemoryError st.heap)) := by
    intro hg
    simp only [execInstr, popInt, popPtr, c0v_pop, val2int, val2ptr, hS, fieldAddr, hc, hs, he,
      orUB, ptrAdd, bind, Except.bind, pure, Except.pure, raise, hg, if_true]
    simp
  refine ⟨hin, hout, ?_, ?_, ?_⟩
  · intro hic h0
    have := hin ⟨by omega, by omega⟩
    rw [hic] at this
    exact this
  · intro hi h0
    exact hout (by omega)
  · intro h0 h1 h2
    rw [eltOffset_exact h s i h0 h1 h2]
    ring

/-- An instance of `aadds_bounds`, at the AADDS of `bc0_big`. -/
theorem aadds_bounds_witness :
    st_aadds_big.S = .int 536870912 :: .ptr (.ptr 1 0) :: [] ∧
    loadInt st_aadds_big.heap (.ptr 1 (0 + OFF_COUNT)) = some 536870913 ∧
    loadInt st_aadds_big.heap (.ptr 1 (0 + OFF_ELT_SIZE)) = some 8 ∧
    loadPtr st_aadds_big.heap (.ptr 1 (0 + OFF_ELEMS)) = some (.ptr 2 0) ∧
    opcodeAt st_aadds_big.P st_aadds_big.pc = some .AADDS ∧
    (((0 : Int) ≤ 536870912 ∧ (536870912 : Int) ≤ 536870913) →
      step bc0_big host0 st_aadds_big
        = .ok { st_aadds_big with pc := pcAdd st_aadds_big.pc 1,
                                  S := .ptr (.ptr 2 (0 + eltOffset host0 8 536870912)) :: [] }) :=
  ⟨rfl, rfl, rfl, rfl, rfl,
    (aadds_bounds bc0_big host0 st_aadds_big 536870912 536870913 8 1 0 2 0 [] rfl rfl rfl rfl rfl).1⟩

/-- C7. NEWARRAY then ARRAYLENGTH.  With a 32-bit count `n` on top of the stack and any
element-size operand byte `b`, NEWARRAY raises MemoryError if `n < 0`; if `n >= 0` it does
not raise: it replaces `n` by the non-null address of a new array header (block
`st.heap.next`), moves `pc` past its operand, stores the count `n` in the header and makes
the header's element pointer refer to a new block whose bytes are all zero; ARRAYLENGTH
applied to that address, in any state with the resulting memory, replaces it by exactly `n`. -/
theorem newarray_length (bc0 : bc0_file) (h : Host) (st : State) (n : Int) (b : Nat)
    (S : List c0_value)
    (hop : opcodeAt st.P st.pc = some .NEWARRAY)
    (hb : byteAt st.P (st.pc + 1) = some b) (hp : st.pc + 2 < SIZE_MOD)
    (hS : st.S = .int n :: S) (hn : INT_MIN ≤ n ∧ n ≤ INT_MAX) :
    (n < 0 → ∃ H1, step bc0 h st = .error (.error .MemoryError H1)) ∧
    (0 ≤ n → ∃ st1 : State,
      step bc0 h st = .ok st1 ∧
      st1.S = .ptr (.ptr st.heap.next 0) :: S ∧ st1.pc = st.pc + 2 ∧
      st1.P = st.P ∧ st1.V = st.V ∧ st1.callStack = st.callStack ∧
      loadInt st1.heap (.ptr st.heap.next OFF_COUNT) = some n ∧
      loadPtr st1.heap (.ptr st.heap.next OFF_ELEMS) = some (.ptr (st.heap.next + 1) 0) ∧
      (st1.heap.blocks (st.heap.next + 1)).size = 8 * n.toNat ∧
      (∀ o, (st1.heap.blocks (st.heap.next + 1)).data o = MemByte.byte 0) ∧
      (∀ st2 : State, ∀ S2, st2.heap = st1.heap → st2.S = .ptr (.ptr st.heap.next 0) :: S2 →
        opcodeAt st2.P st2.pc = some .ARRAYLENGTH →
        step bc0 h st2 = .ok { st2 with pc := pcAdd st2.pc 1, S := .int n :: S2 })) := by
  have h1 : pcAdd st.pc 1 = st.pc + 1 := pcAdd_one _ (by omega)
  have h2 : pcAdd (st.pc + 1) 1 = st.pc + 2 := by
    have := pcAdd_nat (st.pc + 1) 1 (by omega)
    simpa using this
  rw [step_of_opcodeAt bc0 h st _ hop]
  constructor
  · intro hneg
    refine ⟨(st.heap.alloc SIZEOF_C0_ARRAY MemByte.uninit).2, ?_⟩
    simp only [execInstr, popInt, c0v_pop, val2int, hS, bind, Except.bind, raise, hneg, if_true,
      xmalloc]
  · intro hpos
    have hneg : ¬ n < 0 := by omega
    have hA1 : (st.heap.alloc SIZEOF_C0_ARRAY MemByte.uninit).2.inBounds st.heap.next OFF_COUNT 4 = true :=
      inBounds_alloc_new _ _ _ _ _ (by decide) (by decide)
    have hA2 : (st.heap.alloc SIZEOF_C0_ARRAY MemByte.uninit).2.inBounds st.heap.next OFF_ELT_SIZE 4 = true :=
      inBounds_alloc_new _ _ _ _ _ (by decide) (by decide)
    have hA3 : (st.heap.alloc SIZEOF_C0_ARRAY MemByte.uninit).2.inBounds st.heap.next OFF_ELEMS 8 = true :=
      inBounds_alloc_new _ _ _ _ _ (by decide) (by decide)
    simp only [execInstr, popInt, c0v_pop, val2int, hS, bind, Except.bind, raise, hneg, if_false,
      h1, h2, fetch_of_byteAt hb, storeInt, storePtr, xmalloc, xcalloc, SIZEOF_PTR, alloc_fst, hA1, hA2, hA3, inBounds_write,
      inBounds_alloc_old, orUB, write_next, alloc_next, pure, Except.pure, if_true, ptr2val]
    have hne : st.heap.next ≠ st.heap.next + 1 := by omega
    have hcount : loadInt
        (((((st.heap.alloc SIZEOF_C0_ARRAY MemByte.uninit).2.write st.heap.next OFF_COUNT
            (leBytes 4 (toU32 n))).write st.heap.next OFF_ELT_SIZE
            (leBytes 4 (toU32 (sext8 b)))).alloc (8 * n.toNat) (MemByte.byte 0)).2.write
          st.heap.next OFF_ELEMS (ptrBytes (.ptr (st.heap.next + 1) 0)))
        (.ptr st.heap.next OFF_COUNT) = some n := by
      apply loadInt_of_bytes _ _ _ _ _ _ hn
      · rw [inBounds_write]
        apply inBounds_alloc_old
        rw [inBounds_write, inBounds_write]
        exact hA1
      · rw [bytes_write_other _ _ _ _ _ _ _ (Or.inr (Or.inl (by decide))),
          bytes_alloc_old _ _ _ _ _ _ hne,
          bytes_write_other _ _ _ _ _ _ _ (Or.inr (Or.inl (by decide)))]
        have := bytes_write_same (st.heap.alloc SIZEOF_C0_ARRAY MemByte.uninit).2 st.heap.next
          OFF_COUNT (leBytes 4 (toU32 n))
        rwa [leBytes_length] at this
    refine ⟨_, rfl, rfl, rfl, rfl, rfl, rfl, hcount, ?_, ?_, ?_, ?_⟩
    · apply loadPtr_write_same
      apply inBounds_alloc_old
      rw [inBounds_write, inBounds_write]
      exact hA3
    · simp [Heap.write, Heap.alloc]
    · intro o
      simp [Heap.write, Heap.alloc]
    · intro st2 S2 hheap hS2 hop2
      rw [step_of_opcodeAt bc0 h st2 _ hop2]
      have hc2 : loadInt st2.heap (.ptr st.heap.next (0 + OFF_COUNT)) = some n := by
        rw [hheap]
        simpa using hcount
      simp only [execInstr, popPtr, c0v_pop, val2ptr, hS2, fieldAddr, hc2, orUB, bind, Except.bind,
        pure, Except.pure, raise, int2val]
      simp

/-- Witness for C7: NEWARRAY with the count 3 and the element-size byte 4. -/
theorem newarray_length_witness :
    opcodeAt st_newarray.P st_newarray.pc = some .NEWARRAY ∧
    byteAt st_newarray.P (st_newarray.pc + 1) = some 4 ∧ st_newarray.pc + 2 < SIZE_MOD ∧
    st_newarray.S = .int 3 :: [] ∧ (INT_MIN ≤ (3 : Int) ∧ (3 : Int) ≤ INT_MAX) ∧
    ((0 : Int) ≤ 3 → ∃ st1 : State,
      step bc0_empty host0 st_newarray = .ok st1 ∧
      st1.S = .ptr (.ptr st_newarray.heap.next 0) :: [] ∧ st1.pc = st_newarray.pc + 2 ∧
      st1.P = st_newarray.P ∧ st1.V = st_newarray.V ∧ st1.callStack = st_newarray.callStack ∧
      loadInt st1.heap (.ptr st_newarray.heap.next OFF_COUNT) = some 3 ∧
      loadPtr st1.heap (.ptr st_newarray.heap.next OFF_ELEMS)
        = some (.ptr (st_newarray.heap.next + 1) 0) ∧
      (st1.heap.blocks (st_newarray.heap.next + 1)).size = 8 * (3 : Int).toNat ∧
      (∀ o, (st1.heap.blocks (st_newarray.heap.next + 1)).data o = MemByte.byte 0) ∧
      (∀ st2 : State, ∀ S2, st2.heap = st1.heap →
        st2.S = .ptr (.ptr st_newarray.heap.next 0) :: S2 →
        opcodeAt st2.P st2.pc = some .ARRAYLENGTH →
        step bc0_empty host0 st2 = .ok { st2 with pc := pcAdd st2.pc 1, S := .int 3 :: S2 })) :=
  ⟨rfl, rfl, by decide, rfl, by decide,
    (newarray_length bc0_empty host0 st_newarray 3 4 [] rfl rfl (by decide) rfl (by decide)).2⟩

/-- C8. Null safety.  Each of IMLOAD, AMLOAD, CMLOAD, AADDF and ARRAYLENGTH with the null
address on top of the stack, each of IMSTORE, CMSTORE and AADDS with an integer on top and
the null address below it, and AMSTORE with any address value on top and the null target
below it, raises MemoryError, and the memory at the point of the error is the memory before
the instruction: no cell was read or written. -/
theorem null_safety (bc0 : bc0_file) (h : Host) (st : State) :
    (∀ op S, op = Opcode.IMLOAD ∨ op = Opcode.AMLOAD ∨ op = Opcode.CMLOAD ∨ op = Opcode.AADDF ∨
        op = Opcode.ARRAYLENGTH →
      opcodeAt st.P st.pc = some op → st.S = .ptr .null :: S →
      step bc0 h st = .error (.error .MemoryError st.heap)) ∧
    (∀ op x S, op = Opcode.IMSTORE ∨ op = Opcode.CMSTORE ∨ op = Opcode.AADDS →
      opcodeAt st.P st.pc = some op → st.S = .int x :: .ptr .null :: S →
      step bc0 h st = .error (.error .MemoryError st.heap)) ∧
    (∀ v S, opcodeAt st.P st.pc = some .AMSTORE → st.S = .ptr v :: .ptr .null :: S →
      step bc0 h st = .error (.error .MemoryError st.heap)) := by
  refine ⟨?_, ?_, ?_⟩
  · intro op S hop hat hS
    rw [step_of_opcodeAt bc0 h st op hat]
    rcases hop with rfl | rfl | rfl | rfl | rfl <;>
      simp [execInstr, popPtr, c0v_pop, val2ptr, hS, bind, Except.bind, raise]
  · intro op x S hop hat hS
    rw [step_of_opcodeAt bc0 h st op hat]
    rcases hop with rfl | rfl | rfl <;>
      simp [execInstr, popInt, popPtr, c0v_pop, val2int, val2ptr, hS, bind, Except.bind, raise]
  · intro v S hat hS
    rw [step_of_opcodeAt bc0 h st _ hat]
    simp [execInstr, popPtr, c0v_pop, val2ptr, hS, bind, Except.bind, raise]

/-- Witness for C8: IMSTORE of 5 through the null address raises MemoryError with the memory
unchanged. -/
theorem null_safety_witness :
    opcodeAt st_imstore_null.P st_imstore_null.pc = some .IMSTORE ∧
    st_imstore_null.S = .int 5 :: .ptr .null :: [] ∧
    step bc0_empty host0 st_imstore_null = .error (.error .MemoryError st_imstore_null.heap) :=
  ⟨rfl, rfl,
    (null_safety bc0_empty host0 st_imstore_null).2.1 Opcode.IMSTORE 5 [] (Or.inl rfl) rfl rfl⟩

/-- C9, the claim as stated fails: the program `bc0_store` creates an array of one 8-byte
element, takes the address `(2, 0)` of that element (8 accessible bytes) and stores the
null address there; AMSTORE raises MemoryError although its target is not null. -/
theorem amstore_counterexample :
    initState bc0_store = some st_store0 ∧
    steps bc0_store host0 5 st_store0 = .ok st_amstore ∧
    st_amstore.S = [.ptr .null, .ptr (.ptr 2 0)] ∧
    opcodeAt st_amstore.P st_amstore.pc = some .AMSTORE ∧
    st_amstore.heap.inBounds 2 0 8 = true ∧
    step bc0_store host0 st_amstore = .error (.error .MemoryError st_amstore.heap) :=
  ⟨rfl, rfl, rfl, rfl, rfl, rfl⟩

/-- C9 as amended.  With the stack `... a v` (`v` the address value to store, on top; `a` the
target address), AMSTORE raises MemoryError if and only if the target `a` is null or the
value `v` is null.  For a non-null `a` with 8 accessible bytes and a non-null `v` it does not
raise: it pops both, and afterwards the address cell at `a` holds `v`, so that AMLOAD at `a`
pushes `v`. -/
theorem amstore_spec (bc0 : bc0_file) (h : Host) (st : State) (a v : Addr) (S : List c0_value)
    (hop : opcodeAt st.P st.pc = some .AMSTORE) (hS : st.S = .ptr v :: .ptr a :: S) :
    (step bc0 h st = .error (.error .MemoryError st.heap) ↔ (a = .null ∨ v = .null)) ∧
    (∀ b off, a = .ptr b off → st.heap.inBounds b off 8 = true → v ≠ .null →
      ∃ H1, step bc0 h st = .ok { st with pc := pcAdd st.pc 1, S := S, heap := H1 } ∧
        loadPtr H1 a = some v ∧
        ∀ st2 : State, ∀ S2, st2.heap = H1 → st2.S = .ptr a :: S2 →
          opcodeAt st2.P st2.pc = some .AMLOAD →
          step bc0 h st2 = .ok { st2 with pc := pcAdd st2.pc 1, S := .ptr v :: S2 }) := by
  rw [step_of_opcodeAt bc0 h st _ hop]
  constructor
  · constructor
    · intro herr
      by_contra hc
      have hv : ¬ (v = .null ∨ a = .null) := fun e => hc (Or.symm e)
      simp only [execInstr, popPtr, c0v_pop, val2ptr, hS, bind, Except.bind, raise, hv,
        if_false] at herr
      cases hst : storePtr st.heap a v with
      | none => simp [hst, orUB] at herr
      | some H1 => simp [hst, orUB, pure, Except.pure] at herr
    · intro hc
      have hv : v = .null ∨ a = .null := Or.symm hc
      simp only [execInstr, popPtr, c0v_pop, val2ptr, hS, bind, Except.bind, raise, hv, if_true]
  · intro b off ha hb hv
    subst ha
    have hg : ¬ (v = .null ∨ Addr.ptr b off = .null) := by simp [hv]
    have hload := loadPtr_write_same st.heap b off v hb
    refine ⟨st.heap.write b off (ptrBytes v), ?_, hload, ?_⟩
    · simp only [execInstr, popPtr, c0v_pop, val2ptr, hS, bind, Except.bind, raise, hg, if_false,
        storePtr, hb, if_true, orUB, pure, Except.pure]
    · intro st2 S2 hheap hS2 hop2
      rw [step_of_opcodeAt bc0 h st2 _ hop2]
      simp [execInstr, popPtr, c0v_pop, val2ptr, hS2, hheap, hload, orUB, bind, Except.bind,
        pure, Except.pure, raise, ptr2val]

/-- Witness for C9 as amended, at the AMSTORE of `bc0_store` with the non-null value
`(1, 0)` on top: the store succeeds and the cell at `(2, 0)` then holds `(1, 0)`. -/
theorem amstore_spec_witness :
    opcodeAt st_amstore_ok.P st_amstore_ok.pc = some .AMSTORE ∧
    st_amstore_ok.S = .ptr (.ptr 1 0) :: .ptr (.ptr 2 0) :: [] ∧
    st_amstore_ok.heap.inBounds 2 0 8 = true ∧
    ∃ H1, step bc0_store host0 st_amstore_ok
        = .ok { st_amstore_ok with pc := pcAdd st_amstore_ok.pc 1, S := [], heap := H1 } ∧
      loadPtr H1 (.ptr 2 0) = some (.ptr 1 0) ∧
      ∀ st2 : State, ∀ S2, st2.heap = H1 → st2.S = .ptr (.ptr 2 0) :: S2 →
        opcodeAt st2.P st2.pc = some .AMLOAD →
        step bc0_store host0 st2 = .ok { st2 with pc := pcAdd st2.pc 1, S := .ptr (.ptr 1 0) :: S2 } :=
  ⟨rfl, rfl, rfl,
    (amstore_spec bc0_store host0 st_amstore_ok (.ptr 2 0) (.ptr 1 0) [] rfl rfl).2 2 0 rfl rfl
      (by decide)⟩

/-- What NEW does for every operand byte `s`: it pushes the address of a new block (block
`st.heap.next`), advances `pc` by 2, and the new block has `sizeof(size)` = 1 byte, whatever
`s` is. -/
theorem new_block_size (bc0 : bc0_file) (h : Host) (st : State) (s : Nat)
    (hop : opcodeAt st.P st.pc = some .NEW) (hs : byteAt st.P (st.pc + 1) = some s)
    (hp : st.pc + 2 < SIZE_MOD) :
    ∃ H1 : Heap,
      step bc0 h st = .ok { st with pc := st.pc + 2, S := .ptr (.ptr st.heap.next 0) :: st.S,
                                    heap := H1 } ∧
      H1.next = st.heap.next + 1 ∧ (H1.blocks st.heap.next).size = 1 ∧
      (∀ b, b ≠ st.heap.next → H1.blocks b = st.heap.blocks b) := by
  have h1 : pcAdd st.pc 1 = st.pc + 1 := pcAdd_one _ (by omega)
  have h2 : pcAdd (st.pc + 1) 1 = st.pc + 2 := by
    have := pcAdd_nat (st.pc + 1) 1 (by omega)
    simpa using this
  rw [step_of_opcodeAt bc0 h st _ hop]
  refine ⟨(st.heap.alloc 1 MemByte.uninit).2, ?_, rfl, ?_, ?_⟩
  · simp only [execInstr, h1, h2, fetch_of_byteAt hs, bind, Except.bind, pure, Except.pure,
      alloc_fst, ptr2val, xmalloc, SIZEOF_UINT8]
  · rw [alloc_block_new]
  · intro b hb
    exact alloc_block_old _ _ _ b hb

/-- C10, the code at a failing input: `NEW 8` as the first instruction of the entry function
pushes the address of a new block and advances `pc` by 2, but the block has 1 byte, not the
8 bytes the operand asks for. -/
theorem new_size_failing :
    initState bc0_new = some st_new0 ∧
    opcodeAt st_new0.P st_new0.pc = some .NEW ∧ byteAt st_new0.P (st_new0.pc + 1) = some 8 ∧
    ∃ H1 : Heap,
      step bc0_new host0 st_new0
        = .ok { st_new0 with pc := 2, S := [.ptr (.ptr 1 0)], heap := H1 } ∧
      (H1.blocks 1).size = 1 ∧ (H1.blocks 1).size ≠ 8 ∧
      H1.inBounds 1 0 1 = true ∧ H1.inBounds 1 0 8 = false :=
  ⟨rfl, rfl, rfl, (st_new0.heap.alloc 1 MemByte.uninit).2, rfl, rfl, by decide, rfl, rfl⟩

/-- C12, the claim as stated fails: for the base value `INT_MAX` the call chain returns
-2147483646, not `INT_MAX + 3`: each IADD is a 32-bit addition and wraps. -/
theorem call_chain_counterexample :
    initState (chainProgram 2147483647) = some st_chain_max ∧
    run (chainProgram 2147483647) host0 17 st_chain_max = some (.returned (-2147483646)) ∧
    (INT_MIN ≤ (2147483647 : Int) ∧ (2147483647 : Int) ≤ INT_MAX) ∧
    (-2147483646 : Int) ≠ 2147483647 + 3 :=
  ⟨rfl, rfl, by decide, by decide⟩

/-- C12 as amended.  Static call chain of depth 3.  For every 32-bit base value `b`, the
program `chainProgram b` (the entry function pushes `b` and calls function 1, which calls
function 2, which calls function 3, each of the three adding 1 to the value it holds and
returning it) ends after exactly 17 iterations by the entry function's RETURN, executed with
an empty call stack, and the result is the 32-bit two's-complement sum of `b` and 3
(`wrap32 (b + 3)`): `b + 3` when that is at most `INT_MAX`, and `b + 3 - 2^32` otherwise.
The call stack holds three frames while function 3 runs. -/
theorem call_chain (h : Host) (b : Int) (hb : INT_MIN ≤ b ∧ b ≤ INT_MAX) :
    ∃ st0 : State, initState (chainProgram b) = some st0 ∧
      run (chainProgram b) h 17 st0 = some (.returned (wrap32 (b + 3))) ∧
      run (chainProgram b) h 16 st0 = none ∧
      (∃ st16 : State, steps (chainProgram b) h 16 st0 = .ok st16 ∧ st16.callStack = [] ∧
        opcodeAt st16.P st16.pc = some .RETURN ∧ st16.S = [.int (wrap32 (b + 3))]) ∧
      (∃ st6 : State, steps (chainProgram b) h 6 st0 = .ok st6 ∧ st6.callStack.length = 3) ∧
      (b + 3 ≤ INT_MAX → wrap32 (b + 3) = b + 3) ∧
      (INT_MAX < b + 3 → wrap32 (b + 3) = b + 3 - 4294967296) := by
  have e0 := pcAdd_small 0 (by omega)
  have e1 := pcAdd_small 1 (by omega)
  have e2 := pcAdd_small 2 (by omega)
  have e3 := pcAdd_small 3 (by omega)
  have e4 := pcAdd_small 4 (by omega)
  have e5 := pcAdd_small 5 (by omega)
  have e6 := pcAdd_small 6 (by omega)
  have e7 := pcAdd_small 7 (by omega)
  have e8 := pcAdd_small 8 (by omega)
  have hw : wrap32 (wrap32 (wrap32 (wrap32 b + 1) + 1) + 1) = wrap32 (b + 3) := by
    unfold wrap32
    omega
  refine ⟨{ S := [], P := [0x13, 0, 0, 0xB8, 0, 1, 0xB0], pc := 0, V := [], callStack := [],
            heap := initHeap (chainProgram b) }, rfl, ?_, ?_, ?_, ?_, ?_, ?_⟩
  · simp [run, step, fetch, fetch16, byteAt, orUB, decode, execInstr, binop, popInt, c0v_pop,
      val2int, int2val, slotValue, chainProgram, popArgs, bind, Except.bind, pure, Except.pure, e0, e1, e2,
      e3, e4, e5, e6, e7, e8, sext8, hw]
  · simp [run, step, fetch, fetch16, byteAt, orUB, decode, execInstr, binop, popInt, c0v_pop,
      val2int, int2val, slotValue, chainProgram, popArgs, bind, Except.bind, pure, Except.pure, e0, e1, e2,
      e3, e4, e5, e6, e7, e8, sext8, hw]
  · refine ⟨{ S := [.int (wrap32 (b + 3))], P := [0x13, 0, 0, 0xB8, 0, 1, 0xB0], pc := 6, V := [],
              callStack := [], heap := initHeap (chainProgram b) }, ?_, rfl, rfl, rfl⟩
    simp [steps, step, fetch, fetch16, byteAt, orUB, decode, execInstr, binop, popInt, c0v_pop,
      val2int, int2val, slotValue, chainProgram, popArgs, bind, Except.bind, pure, Except.pure, e0, e1, e2,
      e3, e4, e5, e6, e7, e8, sext8, hw]
  · refine ⟨{ S := [], P := [0x15, 0, 0x10, 1, 0x60, 0xB0], pc := 0, V := [some (.int (wrap32 b))],
              callStack :=
                [ { S := [], P := [0x15, 0, 0xB8, 0, 3, 0x10, 1, 0x60, 0xB0], pc := 5,
                    V := [some (.int (wrap32 b))] },
                  { S := [], P := [0x15, 0, 0xB8, 0, 2, 0x10, 1, 0x60, 0xB0], pc := 5,
                    V := [some (.int (wrap32 b))] },
                  { S := [], P := [0x13, 0, 0, 0xB8, 0, 1, 0xB0], pc := 6, V := [] } ],
              heap := initHeap (chainProgram b) }, ?_, rfl⟩
    simp [steps, step, fetch, fetch16, byteAt, orUB, decode, execInstr, binop, popInt, c0v_pop,
      val2int, int2val, slotValue, chainProgram, popArgs, bind, Except.bind, pure, Except.pure, e0, e1, e2,
      e3, e4, e5, e6, e7, e8, sext8, hw]
  · intro h3
    unfold INT_MIN INT_MAX at *
    unfold wrap32
    omega
  · intro h3
    unfold INT_MIN INT_MAX at *
    unfold wrap32
    omega

/-- Witness for C12 as amended: the call chain on the base value 39 returns 42. -/
theorem call_chain_witness :
    (INT_MIN ≤ (39 : Int) ∧ (39 : Int) ≤ INT_MAX) ∧
    ∃ st0 : State, initState (chainProgram 39) = some st0 ∧
      run (chainProgram 39) host0 17 st0 = some (.returned (wrap32 (39 + 3))) ∧
      run (chainProgram 39) host0 16 st0 = none ∧
      (∃ st16 : State, steps (chainProgram 39) host0 16 st0 = .ok st16 ∧ st16.callStack = [] ∧
        opcodeAt st16.P st16.pc = some .RETURN ∧ st16.S = [.int (wrap32 (39 + 3))]) ∧
      (∃ st6 : State, steps (chainProgram 39) host0 6 st0 = .ok st6 ∧ st6.callStack.length = 3) ∧
      ((39 : Int) + 3 ≤ INT_MAX → wrap32 (39 + 3) = 39 + 3) ∧
      (INT_MAX < (39 : Int) + 3 → wrap32 (39 + 3) = 39 + 3 - 4294967296) :=
  ⟨by decide, call_chain host0 39 (by decide)⟩

/-- C13. Expression evaluation end to end.  For all operand bytes `ua`, `ub`, `uc`, a program
whose entry code is `BIPUSH ua; BIPUSH ub; BIPUSH uc; IMUL; IADD; RETURN` ends after exactly
six iterations by the entry function's RETURN with the result `a + b * c`, where `a`, `b`,
`c` are the operand bytes sign-extended to 32 bits (`sext8`, a value in -128..127); for the
bytes 5, 3, 2 the result is 11. -/
theorem expr_eval (bc0 : bc0_file) (h : Host) (f0 : function_info) (ua ub uc : Nat)
    (hf : bc0.function_pool[0]? = some f0) (hcode : f0.code = exprCode ua ub uc) :
    ∃ st0 : State, initState bc0 = some st0 ∧
      run bc0 h 6 st0 = some (.returned (sext8 ua + sext8 ub * sext8 uc)) ∧
      run bc0 h 5 st0 = none ∧
      (-128 ≤ sext8 ua ∧ sext8 ua ≤ 127) ∧
      (ua < 128 → sext8 ua = ua) ∧ (128 ≤ ua → ua < 256 → sext8 ua = (ua : Int) - 256) ∧
      (ua = 5 → ub = 3 → uc = 2 → sext8 ua + sext8 ub * sext8 uc = 11) := by
  have e01 : pcAdd 0 1 = 1 := by decide
  have e11 : pcAdd 1 1 = 2 := by decide
  have e21 : pcAdd 2 1 = 3 := by decide
  have e31 : pcAdd 3 1 = 4 := by decide
  have e41 : pcAdd 4 1 = 5 := by decide
  have e51 : pcAdd 5 1 = 6 := by decide
  have e61 : pcAdd 6 1 = 7 := by decide
  have e71 : pcAdd 7 1 = 8 := by decide
  have hbc := mul_bytes_bounds _ _ (sext8_bounds ub) (sext8_bounds uc)
  have ha := sext8_bounds ua
  have hw1 : wrap32 (sext8 ub * sext8 uc) = sext8 ub * sext8 uc :=
    wrap32_id _ (by unfold INT_MIN INT_MAX; omega)
  have hw2 : wrap32 (sext8 ua + sext8 ub * sext8 uc) = sext8 ua + sext8 ub * sext8 uc :=
    wrap32_id _ (by unfold INT_MIN INT_MAX; omega)
  refine ⟨{ S := [], P := f0.code, pc := 0, V := List.replicate f0.num_vars none, callStack := [],
            heap := initHeap bc0 }, by simp only [initState, hf], ?_, ?_, ha, ?_, ?_, ?_⟩
  · simp [run, step, fetch, byteAt, orUB, decode, execInstr, binop, popInt, c0v_pop, val2int,
      int2val, hcode, exprCode, bind, Except.bind, pure, Except.pure, e01, e11, e21, e31, e41, e51,
      e61, e71, sext8_mod, hw1, hw2]
  · simp [run, step, fetch, byteAt, orUB, decode, execInstr, binop, popInt, c0v_pop, val2int,
      int2val, hcode, exprCode, bind, Except.bind, pure, Except.pure, e01, e11, e21, e31, e41, e51,
      e61, e71, sext8_mod, hw1, hw2]
  · intro h1
    unfold sext8
    have : ua % 256 = ua := Nat.mod_eq_of_lt (by omega)
    simp [this, h1]
  · intro h1 h2
    unfold sext8
    have : ua % 256 = ua := Nat.mod_eq_of_lt (by omega)
    have h3 : ¬ ua < 128 := by omega
    simp [this, h3]
  · intro h1 h2 h3
    subst h1 h2 h3
    decide

/-- Witness for C13: the program for `5 + 3 * 2` returns 11. -/
theorem expr_eval_witness :
    bc0_expr.function_pool[0]? = some fn_expr ∧ fn_expr.code = exprCode 5 3 2 ∧
    ∃ st0 : State, initState bc0_expr = some st0 ∧
      run bc0_expr host0 6 st0 = some (.returned (sext8 5 + sext8 3 * sext8 2)) ∧
      run bc0_expr host0 5 st0 = none ∧
      (-128 ≤ sext8 5 ∧ sext8 5 ≤ 127) ∧
      (5 < 128 → sext8 5 = ((5 : Nat) : Int)) ∧
      (128 ≤ 5 → 5 < 256 → sext8 5 = ((5 : Nat) : Int) - 256) ∧
      (5 = 5 → 3 = 3 → 2 = 2 → sext8 5 + sext8 3 * sext8 2 = 11) :=
  ⟨rfl, rfl, expr_eval bc0_expr host0 fn_expr 5 3 2 rfl rfl⟩

/-- C14. Shift results.  For a 32-bit integer `x` and a shift amount `y` with `0 <= y < 32`
on the stack `... x y` (`y` on top): ISHL replaces them by `l`, the 32-bit integer congruent
to `x * 2^y` modulo `2^32` (the low 32 bits read in two's complement; `INT_MIN` for
(1, 31)); ISHR replaces them by `r = floor(x / 2^y)`, that is `r * 2^y <= x < (r + 1) * 2^y`,
which is negative for negative `x` and non-negative otherwise. -/
theorem shift_results (bc0 : bc0_file) (h : Host) (st : State) (x y : Int) (S : List c0_value)
    (hS : st.S = .int y :: .int x :: S)
    (hx : INT_MIN ≤ x ∧ x ≤ INT_MAX) (hy : 0 ≤ y ∧ y < 32) :
    ∃ l r : Int,
      (opcodeAt st.P st.pc = some .ISHL →
        step bc0 h st = .ok { st with pc := pcAdd st.pc 1, S := .int l :: S }) ∧
      (opcodeAt st.P st.pc = some .ISHR →
        step bc0 h st = .ok { st with pc := pcAdd st.pc 1, S := .int r :: S }) ∧
      (INT_MIN ≤ l ∧ l ≤ INT_MAX) ∧ (l - x * 2 ^ y.toNat) % 4294967296 = 0 ∧
      (x = 1 → y = 31 → l = INT_MIN) ∧
      (r * 2 ^ y.toNat ≤ x ∧ x < (r + 1) * 2 ^ y.toNat) ∧
      (x < 0 → r < 0) ∧ (0 ≤ x → 0 ≤ r) ∧ (INT_MIN ≤ r ∧ r ≤ INT_MAX) := by
  have hy1 : ¬ y ≥ 32 := by omega
  have hy2 : ¬ y < 0 := by omega
  have hfl := shiftRight_floor x y.toNat
  have hpos : (0 : Int) < 2 ^ y.toNat := by positivity
  have hone : (1 : Int) ≤ 2 ^ y.toNat := by omega
  have hneg : x < 0 → x >>> y.toNat < 0 := by
    intro hx0
    by_contra hc
    have : 0 ≤ (x >>> y.toNat + 1) * 2 ^ y.toNat - 2 ^ y.toNat := by nlinarith
    nlinarith [hfl.2]
  have hnn : 0 ≤ x → 0 ≤ x >>> y.toNat := by
    intro hx0
    by_contra hc
    have h1 : x >>> y.toNat + 1 ≤ 0 := by omega
    have : (x >>> y.toNat + 1) * 2 ^ y.toNat ≤ 0 := by nlinarith
    nlinarith [hfl.2]
  refine ⟨wrap32 (x * 2 ^ y.toNat), x >>> y.toNat, ?_, ?_, (wrap32_spec _).1, (wrap32_spec _).2,
    ?_, hfl, hneg, hnn, ?_⟩
  · intro hat
    rw [step_of_opcodeAt bc0 h st _ hat]
    simp only [execInstr, shiftop, popInt, c0v_pop, val2int, hS, bind, Except.bind, raise, hy1, hy2,
      if_false, pure, Except.pure, int2val]
  · intro hat
    rw [step_of_opcodeAt bc0 h st _ hat]
    simp only [execInstr, shiftop, popInt, c0v_pop, val2int, hS, bind, Except.bind, raise, hy1, hy2,
      if_false, pure, Except.pure, int2val]
  · intro e1 e2
    subst e1 e2
    decide
  · unfold INT_MIN INT_MAX at *
    rcases le_or_lt 0 x with hx0 | hx0
    · have h0 := hnn hx0
      have : x >>> y.toNat ≤ x := by nlinarith [hfl.1]
      omega
    · have h0 := hneg hx0
      have : x ≤ x >>> y.toNat := by
        by_contra hc
        have h1 : x >>> y.toNat + 1 ≤ x := by omega
        have h2 : (x >>> y.toNat + 1) * 2 ^ y.toNat ≤ x * 2 ^ y.toNat := by nlinarith
        nlinarith [hfl.2]
      omega

/-- Witness for C14: ISHL on the stack `1 31` pushes `INT_MIN`. -/
theorem shift_results_witness :
    st_shl.S = .int 31 :: .int 1 :: [] ∧ (INT_MIN ≤ (1 : Int) ∧ (1 : Int) ≤ INT_MAX) ∧
    ((0 : Int) ≤ 31 ∧ (31 : Int) < 32) ∧
    ∃ l r : Int,
      (opcodeAt st_shl.P st_shl.pc = some .ISHL →
        step bc0_empty host0 st_shl = .ok { st_shl with pc := pcAdd st_shl.pc 1, S := .int l :: [] }) ∧
      (opcodeAt st_shl.P st_shl.pc = some .ISHR →
        step bc0_empty host0 st_shl = .ok { st_shl with pc := pcAdd st_shl.pc 1, S := .int r :: [] }) ∧
      (INT_MIN ≤ l ∧ l ≤ INT_MAX) ∧ (l - 1 * 2 ^ (31 : Int).toNat) % 4294967296 = 0 ∧
      ((1 : Int) = 1 → (31 : Int) = 31 → l = INT_MIN) ∧
      (r * 2 ^ (31 : Int).toNat ≤ 1 ∧ 1 < (r + 1) * 2 ^ (31 : Int).toNat) ∧
      ((1 : Int) < 0 → r < 0) ∧ ((0 : Int) ≤ 1 → 0 ≤ r) ∧ (INT_MIN ≤ r ∧ r ≤ INT_MAX) :=
  ⟨rfl, by decide, by decide,
    shift_results bc0_empty host0 st_shl 1 31 [] rfl (by decide) (by decide)⟩

/-- C16, the claim as stated fails: `execute` takes the locals from `xmalloc` and writes
only the argument slots, so what an unwritten local holds is what the allocator left there.
In `bc0_stale`, function 2 (one argument, four locals) starts with `VLOAD 3`; with an
allocator that hands back a block whose slot 3 holds 7 (`host_stale`), the local `V[3]`,
never written by this frame, does not hold a default value: VLOAD 3 pushes 7, which is
neither the integer 0 nor the null address, and the program returns 7. -/
theorem locals_counterexample :
    initState bc0_stale = some st_stale0 ∧
    steps bc0_stale host_stale 9 st_stale0 = .ok st_stale_callee ∧
    st_stale_callee.V = [some (.int 0), none, none, none] ∧
    opcodeAt st_stale_callee.P st_stale_callee.pc = some .VLOAD ∧
    byteAt st_stale_callee.P (st_stale_callee.pc + 1) = some 3 ∧
    step bc0_stale host_stale st_stale_callee
      = .ok { st_stale_callee with pc := 2, S := [.int 7] } ∧
    c0_value.int 7 ≠ c0_value.int 0 ∧ c0_value.int 7 ≠ c0_value.ptr .null ∧
    run bc0_stale host_stale 12 st_stale0 = some (.returned 7) :=
  ⟨rfl, rfl, rfl, rfl, rfl, rfl, by decide, by decide, rfl⟩

/-- C16 as amended.  Locals are not initialised by `execute`.  After INVOKESTATIC of a
function with `n` declared arguments and `m >= n` declared locals all `m` locals exist, and
every local `V[k]` with `n <= k < m` is unwritten; so are all locals of the entry function
when `execute` starts.  An unwritten local holds what the allocator left in its slot
(`indeterminate_local k`), which need not be a default value: a VLOAD `k` executed before
any VSTORE `k` pushes that content and continues.  A VLOAD `k` of a local that holds `v`
pushes `v`, and a VSTORE `k` makes the local hold the value it pops. -/
theorem locals_uninit (bc0 : bc0_file) (h : Host) (st : State) (c1 c2 : Nat) (g : function_info)
    (args rest : List c0_value)
    (hop : opcodeAt st.P st.pc = some .INVOKESTATIC)
    (hc1 : byteAt st.P (st.pc + 1) = some c1) (hc2 : byteAt st.P (st.pc + 2) = some c2)
    (hp : st.pc + 3 < SIZE_MOD)
    (hg : bc0.function_pool[256 * c1 + c2]? = some g)
    (hvars : g.num_args ≤ g.num_vars)
    (hS : st.S = args ++ rest) (hlen : args.length = g.num_args) :
    (∃ mid : State, step bc0 h st = .ok mid ∧ mid.V.length = g.num_vars ∧
      (∀ k, g.num_args ≤ k → k < g.num_vars → mid.V[k]? = some none)) ∧
    (∀ (st2 : State) (k : Nat), opcodeAt st2.P st2.pc = some .VLOAD →
      byteAt st2.P (st2.pc + 1) = some k → st2.pc + 2 < SIZE_MOD →
      (st2.V[k]? = some none →
        step bc0 h st2
          = .ok { st2 with pc := st2.pc + 2, S := h.indeterminate_local k :: st2.S }) ∧
      (∀ v, st2.V[k]? = some (some v) →
        step bc0 h st2 = .ok { st2 with pc := st2.pc + 2, S := v :: st2.S })) ∧
    (∀ (st2 : State) (k : Nat) (v : c0_value) (S : List c0_value),
      opcodeAt st2.P st2.pc = some .VSTORE → byteAt st2.P (st2.pc + 1) = some k →
      st2.pc + 2 < SIZE_MOD → k < st2.V.length → st2.S = v :: S →
      ∃ st3 : State, step bc0 h st2 = .ok st3 ∧ st3.V[k]? = some (some v) ∧
        st3.pc = st2.pc + 2 ∧ st3.S = S) ∧
    (∀ (f0 : function_info) (st0 : State), bc0.function_pool[0]? = some f0 →
      initState bc0 = some st0 → st0.V.length = f0.num_vars ∧
        ∀ k, k < f0.num_vars → st0.V[k]? = some none) := by
  have hcall := invokestatic_eq bc0 h st c1 c2 g args rest hop hc1 hc2 hp hg hvars hS hlen
  refine ⟨⟨_, hcall, ?_, ?_⟩, ?_, ?_, ?_⟩
  · simp [hlen]
    omega
  · intro k hk1 hk2
    have hl2 : (args.reverse.map some).length = g.num_args := by simp [hlen]
    rw [List.getElem?_append_right (by omega), hl2, List.getElem?_replicate]
    simp
    omega
  · intro st2 k hop2 hk hp2
    have h1 : pcAdd st2.pc 1 = st2.pc + 1 := pcAdd_one _ (by omega)
    have h2 : pcAdd (st2.pc + 1) 1 = st2.pc + 2 := by
      have := pcAdd_nat (st2.pc + 1) 1 (by omega)
      simpa using this
    rw [step_of_opcodeAt bc0 h st2 _ hop2]
    constructor
    · intro hv
      simp [execInstr, h1, h2, fetch_of_byteAt hk, hv, orUB, slotValue, bind, Except.bind, pure,
        Except.pure]
    · intro v hv
      simp [execInstr, h1, h2, fetch_of_byteAt hk, hv, orUB, slotValue, bind, Except.bind, pure,
        Except.pure]
  · intro st2 k v S hop2 hk hp2 hlt hS2
    have h1 : pcAdd st2.pc 1 = st2.pc + 1 := pcAdd_one _ (by omega)
    have h2 : pcAdd (st2.pc + 1) 1 = st2.pc + 2 := by
      have := pcAdd_nat (st2.pc + 1) 1 (by omega)
      simpa using this
    rw [step_of_opcodeAt bc0 h st2 _ hop2]
    refine ⟨{ st2 with pc := st2.pc + 2, S := S, V := st2.V.set k (some v) }, ?_, ?_, rfl, rfl⟩
    · simp [execInstr, h1, h2, fetch_of_byteAt hk, hS2, c0v_pop, hlt, bind, Except.bind, pure,
        Except.pure]
    · simp [List.getElem?_set, hlt]
  · intro f0 st0 hf hinit
    simp only [initState, hf, Option.some.injEq] at hinit
    subst hinit
    refine ⟨by simp, ?_⟩
    intro k hk
    simp [hk]

/-- Witness for C16 as amended, at the INVOKESTATIC of `bc0_locals`: the callee's second local
is unwritten; with the allocator of `host0`, which hands out zeroed memory, the VLOAD 1 that
follows pushes 0 and the program returns 0. -/
theorem locals_uninit_witness :
    opcodeAt st_locals_call.P st_locals_call.pc = some .INVOKESTATIC ∧
    byteAt st_locals_call.P (st_locals_call.pc + 1) = some 0 ∧
    byteAt st_locals_call.P (st_locals_call.pc + 2) = some 1 ∧
    st_locals_call.pc + 3 < SIZE_MOD ∧
    bc0_locals.function_pool[256 * 0 + 1]? = some fn_second ∧
    fn_second.num_args ≤ fn_second.num_vars ∧
    st_locals_call.S = [.int 7] ++ [] ∧ [c0_value.int 7].length = fn_second.num_args ∧
    (∃ mid : State, step bc0_locals host0 st_locals_call = .ok mid ∧
      mid.V.length = fn_second.num_vars ∧
      (∀ k, fn_second.num_args ≤ k → k < fn_second.num_vars → mid.V[k]? = some none)) ∧
    step bc0_locals host0 st_locals_callee
      = .ok { st_locals_callee with pc := 2, S := [host0.indeterminate_local 1] } ∧
    run bc0_locals host0 5 st_locals0 = some (.returned 0) ∧
    run bc0_entrylocal host0 2 st_entrylocal0 = some (.returned 0) :=
  ⟨rfl, rfl, rfl, by decide, rfl, by decide, rfl, rfl,
    (locals_uninit bc0_locals host0 st_locals_call 0 1 fn_second [.int 7] []
      rfl rfl rfl (by decide) rfl (by decide) rfl rfl).1,
    rfl, rfl, rfl⟩

/-- C17. Byte store keeps the low 7 bits.  For a non-null address `a` with an accessible
byte and a 32-bit integer `v` on top of `a`, CMSTORE pops both and writes one byte, after
which CMLOAD at `a` replaces `a` by `v & 0x7f` (which is `v mod 128`), a value in 0..127;
that value is `v` itself exactly when `0 <= v <= 127`. -/
theorem byte_store_load (bc0 : bc0_file) (h : Host) (st : State) (v : Int) (b : Nat) (off : Int)
    (S : List c0_value)
    (hop : opcodeAt st.P st.pc = some .CMSTORE)
    (hS : st.S = .int v :: .ptr (.ptr b off) :: S)
    (hb : st.heap.inBounds b off 1 = true) :
    ∃ H1 : Heap,
      step bc0 h st = .ok { st with pc := pcAdd st.pc 1, S := S, heap := H1 } ∧
      (∀ st2 : State, ∀ S2, st2.heap = H1 → st2.S = .ptr (.ptr b off) :: S2 →
        opcodeAt st2.P st2.pc = some .CMLOAD →
        step bc0 h st2 = .ok { st2 with pc := pcAdd st2.pc 1, S := .int (v % 128) :: S2 }) ∧
      v % 128 = ((toU32 v &&& 0x7f : Nat) : Int) ∧
      (0 ≤ v % 128 ∧ v % 128 ≤ 127) ∧
      (v % 128 = v ↔ (0 ≤ v ∧ v ≤ 127)) := by
  have hm := land_7f v
  have hr : 0 ≤ v % 128 ∧ v % 128 ≤ 127 := by omega
  have hbyte : toU32 (v % 128) % 256 = (v % 128).toNat := by
    unfold toU32; omega
  have hs : sext8 (v % 128).toNat = v % 128 := by
    unfold sext8
    have h1 : (v % 128).toNat % 256 = (v % 128).toNat := by omega
    rw [h1]
    split <;> omega
  refine ⟨st.heap.write b off [MemByte.byte (v % 128).toNat], ?_, ?_, hm.symm, hr, by omega⟩
  · rw [step_of_opcodeAt bc0 h st _ hop]
    simp [execInstr, popInt, popPtr, c0v_pop, val2int, val2ptr, hS, bind, Except.bind, raise,
      storeChar, hb, orUB, pure, Except.pure, hm, hbyte]
  · intro st2 S2 hheap hS2 hop2
    rw [step_of_opcodeAt bc0 h st2 _ hop2]
    have hl := loadChar_write_same st.heap b off (v % 128).toNat hb
    simp [execInstr, popPtr, c0v_pop, val2ptr, hS2, hheap, hl, hs, orUB, bind, Except.bind,
      pure, Except.pure, raise, int2val]

/-- Witness for C17: storing 200 in the first byte of block 2 and loading it gives 72. -/
theorem byte_store_load_witness :
    opcodeAt st_cmstore.P st_cmstore.pc = some .CMSTORE ∧
    st_cmstore.S = .int 200 :: .ptr (.ptr 2 0) :: [] ∧
    st_cmstore.heap.inBounds 2 0 1 = true ∧
    ∃ H1 : Heap,
      step bc0_store host0 st_cmstore
        = .ok { st_cmstore with pc := pcAdd st_cmstore.pc 1, S := [], heap := H1 } ∧
      (∀ st2 : State, ∀ S2, st2.heap = H1 → st2.S = .ptr (.ptr 2 0) :: S2 →
        opcodeAt st2.P st2.pc = some .CMLOAD →
        step bc0_store host0 st2
          = .ok { st2 with pc := pcAdd st2.pc 1, S := .int ((200 : Int) % 128) :: S2 }) ∧
      (200 : Int) % 128 = ((toU32 200 &&& 0x7f : Nat) : Int) ∧
      (0 ≤ (200 : Int) % 128 ∧ (200 : Int) % 128 ≤ 127) ∧
      ((200 : Int) % 128 = 200 ↔ ((0 : Int) ≤ 200 ∧ (200 : Int) ≤ 127)) :=
  ⟨rfl, rfl, rfl, byte_store_load bc0_store host0 st_cmstore 200 2 0 [] rfl rfl rfl⟩

/-- C18. Comparison conditions and operand order.  For a conditional branch `op` at
position `p = st.pc` with the stack `... x y` (`y` on top, popped first), let `t` be the
condition as the specification words it (`specTaken`): `x < y` for IF_ICMPLT, `x >= y` for
IF_ICMPGE, `x > y` for IF_ICMPGT, `x <= y` for IF_ICMPLE on integers, equality of the two
values for IF_CMPEQ and its negation for IF_CMPNE.  The instruction pops both values in
either case and sets `pc` to the branch target if `t` holds and to `p + 3` otherwise; when
the target differs from `p + 3`, the branch is taken if and only if `t` holds. -/
theorem compare_conditions (bc0 : bc0_file) (h : Host) (st : State) (op : Opcode)
    (vx vy : c0_value) (S : List c0_value) (t : Bool) (hi lo : Nat)
    (hop : opcodeAt st.P st.pc = some op) (hS : st.S = vy :: vx :: S)
    (ht : specTaken op vx vy = some t)
    (hhi : byteAt st.P (st.pc + 1) = some hi) (hlo : byteAt st.P (st.pc + 2) = some lo)
    (hp : st.pc + 3 < SIZE_MOD) :
    step bc0 h st
      = .ok { st with S := S, pc := if t then pcAdd st.pc (branchOffset hi lo) else st.pc + 3 } ∧
    (pcAdd st.pc (branchOffset hi lo) ≠ st.pc + 3 →
      ∀ st1, step bc0 h st = .ok st1 →
        ((st1.pc = pcAdd st.pc (branchOffset hi lo) ↔ t = true) ∧ (st1.pc = st.pc + 3 ↔ t = false))) ∧
    (∀ st1, step bc0 h st = .ok st1 → st1.S = S) := by
  have hstep : step bc0 h st
      = .ok { st with S := S, pc := if t then pcAdd st.pc (branchOffset hi lo) else st.pc + 3 } := by
    rw [step_of_opcodeAt bc0 h st _ hop]
    have e : val_equal vy vx = decide (vx = vy) := by
      unfold val_equal
      exact decide_eq_decide.mpr ⟨Eq.symm, Eq.symm⟩
    rcases specTaken_cases op vx vy t ht with ⟨rfl, rfl⟩ | ⟨rfl, rfl⟩ | ⟨x, y, rfl, rfl, hc⟩
    · simp only [execInstr]
      rw [cmpBranch_eq _ st vy vx S hi lo hS hhi hlo hp, e]
    · simp only [execInstr]
      rw [cmpBranch_eq _ st vy vx S hi lo hS hhi hlo hp, e]
      simp
    · rcases hc with ⟨rfl, rfl⟩ | ⟨rfl, rfl⟩ | ⟨rfl, rfl⟩ | ⟨rfl, rfl⟩ <;>
        · simp only [execInstr]
          rw [icmpBranch_eq _ st x y S hi lo hS hhi hlo hp]
  refine ⟨hstep, ?_, ?_⟩
  · intro hne st1 hst1
    rw [hstep] at hst1
    cases hst1
    cases t <;> simp [hne, Ne.symm hne]
  · intro st1 hst1
    rw [hstep] at hst1
    cases hst1
    rfl

/-- Witness for C18: IF_ICMPLT with the stack `2 5` (5 on top) takes the branch, `2 < 5`. -/
theorem compare_conditions_witness :
    opcodeAt st_branch.P st_branch.pc = some .IF_ICMPLT ∧
    st_branch.S = .int 5 :: .int 2 :: [] ∧
    specTaken .IF_ICMPLT (.int 2) (.int 5) = some true ∧
    byteAt st_branch.P (st_branch.pc + 1) = some 0xFF ∧
    byteAt st_branch.P (st_branch.pc + 2) = some 0xFD ∧
    st_branch.pc + 3 < SIZE_MOD ∧
    step bc0_empty host0 st_branch
      = .ok { st_branch with S := [],
                             pc := if true then pcAdd st_branch.pc (branchOffset 0xFF 0xFD)
                                   else st_branch.pc + 3 } :=
  ⟨rfl, rfl, rfl, rfl, rfl, by decide,
    (compare_conditions bc0_empty host0 st_branch .IF_ICMPLT (.int 2) (.int 5) [] true 0xFF 0xFD
      rfl rfl rfl rfl rfl (by decide)).1⟩

/-- C19, the code at a failing input: `bc0_arr16` creates an array of one element with the
element size 16 and takes the address of the element at index 0.  AADDS pushes the element
base `(2, 0)`, at byte offset `0 * 16`, but the element storage that NEWARRAY allocated
(block 2) has `sizeof(void*) * 1` = 8 bytes, so the 16 bytes of the element do not lie within
it: `0 * 16 + 16 > 8`. -/
theorem elem_storage_failing :
    initState bc0_arr16 = some st_arr16_0 ∧
    steps bc0_arr16 host0 4 st_arr16_0 = .ok st_arr16_4 ∧
    st_arr16_4.S = [.ptr (.ptr 2 0)] ∧
    loadInt st_arr16_4.heap (.ptr 1 OFF_COUNT) = some 1 ∧
    loadInt st_arr16_4.heap (.ptr 1 OFF_ELT_SIZE) = some 16 ∧
    loadPtr st_arr16_4.heap (.ptr 1 OFF_ELEMS) = some (.ptr 2 0) ∧
    (st_arr16_4.heap.blocks 2).size = 8 ∧
    ¬ (0 * 16 + 16 ≤ (st_arr16_4.heap.blocks 2).size) ∧
    st_arr16_4.heap.inBounds 2 0 8 = true ∧
    st_arr16_4.heap.inBounds 2 0 16 = false :=
  ⟨rfl, rfl, rfl, rfl, rfl, rfl, rfl, by decide, rfl, rfl⟩

/-- C20, the code at a failing input: `bc0_arr200` creates an array with the element-size
operand byte 200.  NEWARRAY records `(int32_t)(int8_t)200` = -56 as the element size, not
200; read as an unsigned 32-bit field the recorded value is 4294967240.  AADDS at the index
1 then adds the byte offset -56 to the element base `(2, 0)` when the array fields are
signed, and 4294967240 when they are unsigned. -/
theorem elt_size_failing :
    initState bc0_arr200 = some st_arr200_0 ∧
    steps bc0_arr200 host0 3 st_arr200_0 = .ok st_arr200_3 ∧
    steps bc0_arr200 host_unsigned 3 st_arr200_0 = .ok st_arr200_3 ∧
    sext8 200 = -56 ∧
    loadInt st_arr200_3.heap (.ptr 1 OFF_ELT_SIZE) = some (-56) ∧
    toU32 (-56) = 4294967240 ∧
    loadPtr st_arr200_3.heap (.ptr 1 OFF_ELEMS) = some (.ptr 2 0) ∧
    step bc0_arr200 host0 st_arr200_3
      = .ok { st_arr200_3 with pc := 7, S := [.ptr (.ptr 2 (-56))] } ∧
    step bc0_arr200 host_unsigned st_arr200_3
      = .ok { st_arr200_3 with pc := 7, S := [.ptr (.ptr 2 4294967240)] } :=
  ⟨rfl, rfl, rfl, rfl, rfl, rfl, rfl, rfl, rfl⟩

end C0VM
